import Mathlib

/-!
# Log-management chaincode: embedding and verification

Shallow embedding of `chaincode-go/chaincode/smartcontract.go`:

* the `Log` record and the five transactions `InitLedger`, `CreateAsset`,
  `ReadAsset`, `AssetExists`, `GetAllAssets`;
* the part of Go's `encoding/json` the contract runs on a `Log`
  (`json.Marshal` of the struct, `json.Unmarshal` into the struct), down to
  `utf8.DecodeRune`, `utf8.AppendRune`, `strconv.AppendInt` and
  `strconv.ParseInt`;
* the world-state stub (`GetState`, `PutState`, `GetStateByRange`) as an
  ordered key-value list with explicit failure answers.

A Go `string` and a Go `[]byte` are sequences of bytes; a byte is given by its
value as a natural number (a value from 256 up is no byte; where one stands in
a list the functions treat it as a byte that starts no UTF-8 encoding).  Masks
and shifts of the Go code are written as `%`, `/` and `*` by powers of two.
Go's `int` is the 64-bit integer.  `encoding/json` is the one of Go 1.22.

Loops of the Go code that advance an index by more than one byte at a time are
written with a bound on the number of iterations; the caller passes a bound
that covers the input, and the section on bounds proves that no larger bound
changes a result.
-/

namespace Chaincode

/-! ## Bytes and strings -/

/-- Go `string` / `[]byte`: the sequence of byte values. -/
abbrev GoString := List Nat

/-- Bytes of an ASCII literal of the source. -/
def lit (s : String) : GoString := s.data.map Char.toNat

/-- Go `int` on the 64-bit platforms the chaincode is built for. -/
abbrev GoInt := { n : Int // -9223372036854775808 ≤ n ∧ n < 9223372036854775808 }

/-! ## unicode/utf8 -/

/-- The constant `utf8.RuneError` (U+FFFD). -/
def RuneError : Nat := 0xFFFD

/-- The tables `utf8.first` and `utf8.acceptRanges` for a non-ASCII lead byte:
the size of the encoding and the accepted range of the second byte; `none` for
the bytes marked `xx` (illegal). -/
def leadInfo (p0 : Nat) : Option (Nat × Nat × Nat) :=
  if 0xC2 ≤ p0 ∧ p0 ≤ 0xDF then some (2, 0x80, 0xBF)
  else if p0 = 0xE0 then some (3, 0xA0, 0xBF)
  else if 0xE1 ≤ p0 ∧ p0 ≤ 0xEC then some (3, 0x80, 0xBF)
  else if p0 = 0xED then some (3, 0x80, 0x9F)
  else if 0xEE ≤ p0 ∧ p0 ≤ 0xEF then some (3, 0x80, 0xBF)
  else if p0 = 0xF0 then some (4, 0x90, 0xBF)
  else if 0xF1 ≤ p0 ∧ p0 ≤ 0xF3 then some (4, 0x80, 0xBF)
  else if p0 = 0xF4 then some (4, 0x80, 0x8F)
  else none

/-- Go `utf8.DecodeRune`: the first rune of `p` and the number of bytes it
takes; `(RuneError, 1)` for an invalid encoding, `(RuneError, 0)` for no
input. -/
def decodeRune : GoString → Nat × Nat
  | [] => (RuneError, 0)
  | p0 :: rest =>
    if p0 < 0x80 then (p0, 1)
    else
      match leadInfo p0 with
      | none => (RuneError, 1)
      | some (sz, lo, hi) =>
        match rest with
        | [] => (RuneError, 1)
        | b1 :: rest1 =>
          if b1 < lo ∨ hi < b1 then (RuneError, 1)
          else if sz ≤ 2 then (p0 % 32 * 64 + b1 % 64, 2)
          else
            match rest1 with
            | [] => (RuneError, 1)
            | b2 :: rest2 =>
              if b2 < 0x80 ∨ 0xBF < b2 then (RuneError, 1)
              else if sz ≤ 3 then (p0 % 16 * 4096 + b1 % 64 * 64 + b2 % 64, 3)
              else
                match rest2 with
                | [] => (RuneError, 1)
                | b3 :: _ =>
                  if b3 < 0x80 ∨ 0xBF < b3 then (RuneError, 1)
                  else (p0 % 8 * 262144 + b1 % 64 * 4096 + b2 % 64 * 64 + b3 % 64, 4)

/-- Go `utf8.AppendRune` on an empty buffer: the UTF-8 encoding of `r`, with
surrogates and values above U+10FFFF written as U+FFFD. -/
def encodeRune (r : Nat) : GoString :=
  if r ≤ 0x7F then [r]
  else if r ≤ 0x7FF then [0xC0 + r / 64, 0x80 + r % 64]
  else if 0x10FFFF < r ∨ (0xD800 ≤ r ∧ r ≤ 0xDFFF) then [0xEF, 0xBF, 0xBD]
  else if r ≤ 0xFFFF then [0xE0 + r / 4096, 0x80 + r / 64 % 64, 0x80 + r % 64]
  else [0xF0 + r / 262144, 0x80 + r / 4096 % 64, 0x80 + r / 64 % 64, 0x80 + r % 64]

/-- Go `utf8.Valid` as a loop over the runes of `s`; `fuel` bounds the number
of runes. -/
def validLoop : Nat → GoString → Bool
  | _, [] => true
  | 0, _ :: _ => false
  | fuel + 1, b :: rest =>
    if b < 0x80 then validLoop fuel rest
    else
      let p := decodeRune (b :: rest)
      if p.2 = 1 then false
      else validLoop fuel ((b :: rest).drop p.2)

/-- Go `utf8.Valid`. -/
def validUTF8 (s : GoString) : Bool := validLoop s.length s

/-- The loop of `coerceUTF8`; `fuel` bounds the number of runes. -/
def coerceLoop : Nat → GoString → GoString
  | _, [] => []
  | 0, _ :: _ => []
  | fuel + 1, b :: rest =>
    if b < 0x80 then b :: coerceLoop fuel rest
    else
      let p := decodeRune (b :: rest)
      if p.2 = 1 then [0xEF, 0xBF, 0xBD] ++ coerceLoop fuel rest
      else (b :: rest).take p.2 ++ coerceLoop fuel ((b :: rest).drop p.2)

/-- The string `s` coerced to valid UTF-8: every byte that starts no valid
encoding is replaced by the three bytes of U+FFFD, every valid encoding is
kept. -/
def coerceUTF8 (s : GoString) : GoString := coerceLoop s.length s

/-! ## encoding/json: Marshal -/

/-- The string `hex` of encoding/json: the lower-case hexadecimal digit. -/
def hexDigit (n : Nat) : Nat := if n < 10 then 48 + n else 87 + n

/-- The table `htmlSafeSet`: ASCII bytes written without escaping. -/
def htmlSafe (b : Nat) : Bool :=
  decide (0x20 ≤ b ∧ b < 0x80 ∧ b ≠ 34 ∧ b ≠ 38 ∧ b ≠ 60 ∧ b ≠ 62 ∧ b ≠ 92)

/-- The `switch b` of `appendString` for an ASCII byte outside `htmlSafeSet`
(Go 1.22 and later; earlier releases write `\u0008` and `\u000c` where this
one writes `\b` and `\f`, and both spellings unquote to the same byte). -/
def escapeByte (b : Nat) : GoString :=
  if b = 92 ∨ b = 34 then [92, b]
  else if b = 8 then [92, 98]
  else if b = 12 then [92, 102]
  else if b = 10 then [92, 110]
  else if b = 13 then [92, 114]
  else if b = 9 then [92, 116]
  else [92, 117, 48, 48, hexDigit (b / 16), hexDigit (b % 16)]

/-- The loop of `appendString` (with `escapeHTML`): the bytes written between
the two quotes for the source bytes `src`; `fuel` bounds the iterations. -/
def appendStringLoop : Nat → GoString → GoString
  | _, [] => []
  | 0, _ :: _ => []
  | fuel + 1, b :: rest =>
    if b < 0x80 then
      (if htmlSafe b then [b] else escapeByte b) ++ appendStringLoop fuel rest
    else
      let p := decodeRune (b :: rest)
      if p.1 = RuneError ∧ p.2 = 1 then
        [92, 117, 102, 102, 102, 100] ++ appendStringLoop fuel rest
      else if p.1 = 0x2028 ∨ p.1 = 0x2029 then
        [92, 117, 50, 48, 50, hexDigit (p.1 % 16)]
          ++ appendStringLoop fuel ((b :: rest).drop p.2)
      else
        (b :: rest).take p.2 ++ appendStringLoop fuel ((b :: rest).drop p.2)

/-- The function `appendString` of encoding/json on an empty buffer: a JSON string literal. -/
def appendString (src : GoString) : GoString :=
  34 :: (appendStringLoop src.length src ++ [34])

/-- The loop of `strconv.formatBits` in base 10: the decimal digits of `u`
in front of `acc`; `fuel` bounds the iterations. -/
def formatBits : Nat → Nat → GoString → GoString
  | 0, u, acc => (48 + u % 10) :: acc
  | fuel + 1, u, acc =>
    if u < 10 then (48 + u) :: acc
    else formatBits fuel (u / 10) ((48 + u % 10) :: acc)

/-- Go `strconv.AppendInt(nil, i, 10)`. -/
def appendInt (i : Int) : GoString :=
  if i < 0 then 45 :: formatBits i.natAbs i.natAbs []
  else formatBits i.natAbs i.natAbs []

/-! ## encoding/json: the scanner -/

/-- The scanner's `isSpace`. -/
def isSpace (c : Nat) : Bool := decide (c = 32 ∨ c = 9 ∨ c = 13 ∨ c = 10)

/-- Skips the white space the scanner accepts between tokens. -/
def skipWS : GoString → GoString
  | [] => []
  | c :: rest => if isSpace c then skipWS rest else c :: rest

/-- Decimal digit. -/
def isDigit (c : Nat) : Bool := decide (48 ≤ c ∧ c ≤ 57)

/-- Hexadecimal digit, either case: the value of the digit. -/
def hexVal (c : Nat) : Option Nat :=
  if 48 ≤ c ∧ c ≤ 57 then some (c - 48)
  else if 97 ≤ c ∧ c ≤ 102 then some (c - 97 + 10)
  else if 65 ≤ c ∧ c ≤ 70 then some (c - 65 + 10)
  else none

/-- The scanner inside a string literal (`stateInString`, `stateInStringEsc`,
`stateInStringEscU...`), entered after the opening quote: the bytes up to the
closing quote and the input after it. -/
def scanString : GoString → Option (GoString × GoString)
  | [] => none
  | c :: rest =>
    if c = 34 then some ([], rest)
    else if c = 92 then
      match rest with
      | [] => none
      | e :: rest1 =>
        if e = 98 ∨ e = 102 ∨ e = 110 ∨ e = 114 ∨ e = 116 ∨ e = 92 ∨ e = 47 ∨ e = 34 then
          (scanString rest1).map (fun p => (92 :: e :: p.1, p.2))
        else if e = 117 then
          match rest1 with
          | h1 :: h2 :: h3 :: h4 :: rest2 =>
            if (hexVal h1).isSome ∧ (hexVal h2).isSome ∧ (hexVal h3).isSome
                ∧ (hexVal h4).isSome then
              (scanString rest2).map (fun p => (92 :: 117 :: h1 :: h2 :: h3 :: h4 :: p.1, p.2))
            else none
          | _ => none
        else none
    else if c < 32 then none
    else (scanString rest).map (fun p => (c :: p.1, p.2))

/-- The scanner after the integer part of a number: an optional fraction. -/
def scanFrac : GoString → Option (GoString × GoString)
  | 46 :: d :: rest =>
    if isDigit d then some (46 :: d :: rest.takeWhile isDigit, rest.dropWhile isDigit)
    else none
  | [46] => none
  | inp => some ([], inp)

/-- The digits of an exponent: at least one. -/
def scanExpDigits (pre : GoString) : GoString → Option (GoString × GoString)
  | d :: rest =>
    if isDigit d then some (pre ++ d :: rest.takeWhile isDigit, rest.dropWhile isDigit)
    else none
  | [] => none

/-- The scanner after the fraction of a number: an optional exponent. -/
def scanExp : GoString → Option (GoString × GoString)
  | [] => some ([], [])
  | e :: rest =>
    if e = 101 ∨ e = 69 then
      match rest with
      | [] => none
      | s :: rest1 =>
        if s = 43 ∨ s = 45 then scanExpDigits [e, s] rest1
        else scanExpDigits [e] rest
    else some ([], e :: rest)

/-- The scanner on a number (after an optional minus sign): the literal and
the input after it. -/
def scanUnsigned : GoString → Option (GoString × GoString)
  | [] => none
  | d :: rest =>
    if isDigit d then
      let ip : GoString × GoString :=
        if d = 48 then ([48], rest) else (d :: rest.takeWhile isDigit, rest.dropWhile isDigit)
      match scanFrac ip.2 with
      | none => none
      | some (fr, r2) =>
        match scanExp r2 with
        | none => none
        | some (ex, r3) => some (ip.1 ++ fr ++ ex, r3)
    else none

/-- The scanner on a number literal. -/
def scanNumber : GoString → Option (GoString × GoString)
  | 45 :: rest => (scanUnsigned rest).map (fun p => (45 :: p.1, p.2))
  | inp => scanUnsigned inp

/-! ## encoding/json: unquoting a string literal -/

/-- The function `getu4`: the value of a leading `\uXXXX`, `none` where Go answers `-1`. -/
def getu4 : GoString → Option Nat
  | 92 :: 117 :: h1 :: h2 :: h3 :: h4 :: _ =>
    match hexVal h1, hexVal h2, hexVal h3, hexVal h4 with
    | some a, some b, some c, some d => some (((a * 16 + b) * 16 + c) * 16 + d)
    | _, _, _, _ => none
  | _ => none

/-- Go `utf16.IsSurrogate`. -/
def isSurrogate (r : Nat) : Bool := decide (0xD800 ≤ r ∧ r < 0xE000)

/-- Go `utf16.DecodeRune`, the second argument `none` for `-1`. -/
def utf16DecodeRune (r1 : Nat) (r2 : Option Nat) : Nat :=
  match r2 with
  | some r2 =>
    if 0xD800 ≤ r1 ∧ r1 < 0xDC00 ∧ 0xDC00 ≤ r2 ∧ r2 < 0xE000 then
      (r1 - 0xD800) * 1024 + (r2 - 0xDC00) + 0x10000
    else RuneError
  | none => RuneError

/-- The first loop of `unquoteBytes`: the length of the prefix that needs no
unquoting. -/
def cleanPrefix : Nat → GoString → Nat
  | _, [] => 0
  | 0, _ :: _ => 0
  | fuel + 1, c :: rest =>
    if c = 92 ∨ c = 34 ∨ c < 32 then 0
    else if c < 0x80 then 1 + cleanPrefix fuel rest
    else
      let p := decodeRune (c :: rest)
      if p.1 = RuneError ∧ p.2 = 1 then 0
      else p.2 + cleanPrefix fuel ((c :: rest).drop p.2)

/-- The `case c == '\\'` of the second loop of `unquoteBytes`, on the input
after the backslash: the bytes written and the input left, `none` where Go
answers `ok = false`. -/
def unquoteEscape : GoString → Option (GoString × GoString)
  | [] => none
  | e :: rest1 =>
    if e = 34 ∨ e = 92 ∨ e = 47 ∨ e = 39 then some ([e], rest1)
    else if e = 98 then some ([8], rest1)
    else if e = 102 then some ([12], rest1)
    else if e = 110 then some ([10], rest1)
    else if e = 114 then some ([13], rest1)
    else if e = 116 then some ([9], rest1)
    else if e = 117 then
      match getu4 (92 :: e :: rest1) with
      | none => none
      | some rr =>
        if isSurrogate rr then
          let dec := utf16DecodeRune rr (getu4 (rest1.drop 4))
          if dec ≠ RuneError then some (encodeRune dec, rest1.drop 10)
          else some (encodeRune RuneError, rest1.drop 4)
        else some (encodeRune rr, rest1.drop 4)
    else none

/-- The second loop of `unquoteBytes`: the bytes written for the remaining
input, `none` where Go answers `ok = false`; `fuel` bounds the iterations. -/
def unquoteLoop : Nat → GoString → Option GoString
  | _, [] => some []
  | 0, _ :: _ => none
  | fuel + 1, c :: rest =>
    if c = 92 then
      match unquoteEscape rest with
      | none => none
      | some (out, r) => (unquoteLoop fuel r).map (out ++ ·)
    else if c = 34 ∨ c < 32 then none
    else if c < 0x80 then (unquoteLoop fuel rest).map (c :: ·)
    else
      let p := decodeRune (c :: rest)
      (unquoteLoop fuel ((c :: rest).drop p.2)).map (encodeRune p.1 ++ ·)

/-- The function `unquoteBytes` on the bytes between the quotes of a literal. -/
def unquoteBytes (s : GoString) : Option GoString :=
  let r := cleanPrefix s.length s
  (unquoteLoop s.length (s.drop r)).map (s.take r ++ ·)

/-! ## encoding/json: values -/

/-- A JSON value as the decoder walks it: strings unquoted, numbers as
written. -/
inductive JValue where
  | null
  | bool (b : Bool)
  | number (raw : GoString)
  | string (s : GoString)
  | array (elems : List JValue)
  | object (members : List (GoString × JValue))

/-- The scanner's `maxNestingDepth`. -/
def maxNestingDepth : Nat := 10000

/-- A value that opens no array or object: a string, a number or one of the
three literals. The input starts at the value. -/
def parseScalar : GoString → Option (JValue × GoString)
  | 34 :: rest =>
    match scanString rest with
    | none => none
    | some (raw, r) => (unquoteBytes raw).map (fun s => (JValue.string s, r))
  | 116 :: 114 :: 117 :: 101 :: r => some (JValue.bool true, r)
  | 102 :: 97 :: 108 :: 115 :: 101 :: r => some (JValue.bool false, r)
  | 110 :: 117 :: 108 :: 108 :: r => some (JValue.null, r)
  | inp => (scanNumber inp).map (fun p => (JValue.number p.1, p.2))

/-- The elements of an array after the first position, each read by `pv`,
up to the closing bracket. -/
def parseElems (pv : GoString → Option (JValue × GoString)) :
    Nat → GoString → Option (List JValue × GoString)
  | 0, _ => none
  | fuel + 1, inp =>
    match pv inp with
    | none => none
    | some (v, r) =>
      match skipWS r with
      | 44 :: r1 => (parseElems pv fuel r1).map (fun p => (v :: p.1, p.2))
      | 93 :: r1 => some ([v], r1)
      | _ => none

/-- The members of an object, each value read by `pv`, up to the closing
brace. -/
def parseMembers (pv : GoString → Option (JValue × GoString)) :
    Nat → GoString → Option (List (GoString × JValue) × GoString)
  | 0, _ => none
  | fuel + 1, inp =>
    match skipWS inp with
    | 34 :: r0 =>
      match scanString r0 with
      | none => none
      | some (raw, r1) =>
        match unquoteBytes raw with
        | none => none
        | some key =>
          match skipWS r1 with
          | 58 :: r2 =>
            match pv r2 with
            | none => none
            | some (v, r3) =>
              match skipWS r3 with
              | 44 :: r4 => (parseMembers pv fuel r4).map (fun p => ((key, v) :: p.1, p.2))
              | 125 :: r4 => some ([(key, v)], r4)
              | _ => none
          | _ => none
    | _ => none

/-- One JSON value and the input after it; the first argument is the number of
arrays and objects that may still be opened. -/
def parseValue : Nat → GoString → Option (JValue × GoString)
  | 0, inp => parseScalar (skipWS inp)
  | depth + 1, inp =>
    match skipWS inp with
    | 123 :: rest =>
      match skipWS rest with
      | 125 :: r => some (JValue.object [], r)
      | _ => (parseMembers (parseValue depth) rest.length rest).map
               (fun p => (JValue.object p.1, p.2))
    | 91 :: rest =>
      match skipWS rest with
      | 93 :: r => some (JValue.array [], r)
      | _ => (parseElems (parseValue depth) rest.length rest).map
               (fun p => (JValue.array p.1, p.2))
    | inp1 => parseScalar inp1

/-- The function `checkValid` together with the walk of the decoder: the value the
whole input spells, `none` for a syntax error. -/
def parseJSON (data : GoString) : Option JValue :=
  match parseValue maxNestingDepth data with
  | none => none
  | some (v, rest) => if skipWS rest = [] then some v else none

/-! ## strconv.ParseInt -/

/-- Go `strconv.ParseUint(s, 10, 64)` without the range check (made by
`parseInt`): the value of a non-empty run of decimal digits. -/
def parseUint (s : GoString) : Option Nat :=
  if s = [] then none
  else if s.all isDigit then some (s.foldl (fun acc d => acc * 10 + (d - 48)) 0)
  else none

/-- Go `strconv.ParseInt(s, 10, 64)`, `none` for an error. -/
def parseInt : GoString → Option GoInt
  | [] => none
  | c :: rest =>
    match parseUint (if c = 43 ∨ c = 45 then rest else c :: rest) with
    | none => none
    | some un =>
      if c = 45 then
        if h : un ≤ 9223372036854775808 then some ⟨-(un : Int), by omega⟩ else none
      else
        if h : un < 9223372036854775808 then some ⟨(un : Int), by omega⟩ else none

/-! ## The record and its codec -/

/-- The struct `Log`, fields in the order of the declaration. -/
structure Log where
  ID : GoString
  Timestamp : GoString
  Server : GoString
  User : GoString
  Event : GoString
  Port : GoInt
  IPAddress : GoString
deriving DecidableEq

/-- Errors of the contract: a `fmt.Errorf` message, an error answered by the
stub (its message), and the two errors of `json.Unmarshal`. -/
inductive GoError where
  | errorf (msg : GoString)
  | stub (msg : GoString)
  | syntaxError
  | unmarshalTypeError (value : GoString) (field : GoString)
deriving DecidableEq

deriving instance DecidableEq for Except

/-- The fields of `Log`. -/
inductive Field where
  | ID | Timestamp | Server | User | Event | Port | IPAddress
deriving DecidableEq

/-- The key of the `json:"..."` tag of each field. -/
def Field.name : Field → GoString
  | .ID => lit "ID"
  | .Timestamp => lit "timestamp"
  | .Server => lit "server"
  | .User => lit "user"
  | .Event => lit "event"
  | .Port => lit "port"
  | .IPAddress => lit "ipAddress"

/-- The fields in the order of the struct declaration (the order
`cachedTypeFields` lists them in). -/
def logFields : List Field :=
  [.ID, .Timestamp, .Server, .User, .Event, .Port, .IPAddress]

/-- The zero value of `Log` (`var asset Log`). -/
def zeroLog : Log :=
  { ID := [], Timestamp := [], Server := [], User := [], Event := [],
    Port := ⟨0, by decide⟩, IPAddress := [] }

/-- The struct encoder of encoding/json on a `Log`: the fields in the order of
the declaration, each under the key of its tag, strings by `appendString`,
the int by `strconv.AppendInt`. -/
def encodeLog (a : Log) : GoString :=
  lit "\x7b\"ID\":" ++ appendString a.ID
    ++ lit ",\"timestamp\":" ++ appendString a.Timestamp
    ++ lit ",\"server\":" ++ appendString a.Server
    ++ lit ",\"user\":" ++ appendString a.User
    ++ lit ",\"event\":" ++ appendString a.Event
    ++ lit ",\"port\":" ++ appendInt a.Port.val
    ++ lit ",\"ipAddress\":" ++ appendString a.IPAddress
    ++ lit "\x7d"

/-- Go `json.Marshal` of a `Log`; it never fails on this struct. -/
def jsonMarshal (a : Log) : Except GoError GoString :=
  .ok (encodeLog a)

/-- The record `a` with every string field coerced to valid UTF-8. -/
def coerceLog (a : Log) : Log :=
  { ID := coerceUTF8 a.ID, Timestamp := coerceUTF8 a.Timestamp, Server := coerceUTF8 a.Server,
    User := coerceUTF8 a.User, Event := coerceUTF8 a.Event, Port := a.Port,
    IPAddress := coerceUTF8 a.IPAddress }

/-- Every string field of the record is valid UTF-8 (`utf8.Valid`). -/
def Log.validStrings (a : Log) : Bool :=
  validUTF8 a.ID && validUTF8 a.Timestamp && validUTF8 a.Server && validUTF8 a.User
    && validUTF8 a.Event && validUTF8 a.IPAddress

/-- The function `foldName` of encoding/json, as far as a key can meet an ASCII field
name: ASCII letters go to upper case, U+017F (bytes C5 BF) folds to `S` and
U+212A (bytes E2 84 AA) to `K`; every other rune folds to a rune outside
ASCII and is kept as written. -/
def foldName : GoString → GoString
  | [] => []
  | 197 :: 191 :: rest => 83 :: foldName rest
  | 226 :: 132 :: 170 :: rest => 75 :: foldName rest
  | c :: rest => (if 97 ≤ c ∧ c ≤ 122 then c - 32 else c) :: foldName rest

/-- The field a key of the object selects: the exact name first
(`byExactName`), then the folded name (`byFoldedName`). -/
def findField (key : GoString) : Option Field :=
  match logFields.find? (fun f => f.name = key) with
  | some f => some f
  | none => logFields.find? (fun f => foldName f.name = foldName key)

/-- Stores a string in a field (`literalStore` on a string literal). -/
def setString (a : Log) (f : Field) (s : GoString) : Except GoError Log :=
  match f with
  | .ID => .ok { a with ID := s }
  | .Timestamp => .ok { a with Timestamp := s }
  | .Server => .ok { a with Server := s }
  | .User => .ok { a with User := s }
  | .Event => .ok { a with Event := s }
  | .Port => .error (.unmarshalTypeError (lit "string") f.name)
  | .IPAddress => .ok { a with IPAddress := s }

/-- The decoder on the value of one field (`d.value` on the field): `null`
leaves the field as it is, a string goes to a string field, a number to the
int field through `strconv.ParseInt`, anything else is an
`UnmarshalTypeError`. -/
def storeField (a : Log) (f : Field) : JValue → Except GoError Log
  | .null => .ok a
  | .string s => setString a f s
  | .number raw =>
    match f with
    | .Port =>
      match parseInt raw with
      | some n => .ok { a with Port := n }
      | none => .error (.unmarshalTypeError (lit "number " ++ raw) f.name)
    | _ => .error (.unmarshalTypeError (lit "number") f.name)
  | .bool _ => .error (.unmarshalTypeError (lit "bool") f.name)
  | .array _ => .error (.unmarshalTypeError (lit "array") f.name)
  | .object _ => .error (.unmarshalTypeError (lit "object") f.name)

/-- The loop of `d.object` over the members: a key that selects no field is
skipped with its value; the first type error is the one reported. -/
def decodeMembers : List (GoString × JValue) → Log → Except GoError Log
  | [], a => .ok a
  | (key, v) :: rest, a =>
    match findField key with
    | none => decodeMembers rest a
    | some f =>
      match storeField a f v with
      | .error e => .error e
      | .ok a1 => decodeMembers rest a1

/-- Go `json.Unmarshal(data, &asset)` for a fresh `var asset Log`: a syntax
error for input that is not one JSON value; an object fills the fields, `null`
leaves the zero value, any other value is an `UnmarshalTypeError`. -/
def jsonUnmarshal (data : GoString) : Except GoError Log :=
  match parseJSON data with
  | none => .error .syntaxError
  | some (.object members) => decodeMembers members zeroLog
  | some .null => .ok zeroLog
  | some (.bool _) => .error (.unmarshalTypeError (lit "bool") [])
  | some (.number _) => .error (.unmarshalTypeError (lit "number") [])
  | some (.string _) => .error (.unmarshalTypeError (lit "string") [])
  | some (.array _) => .error (.unmarshalTypeError (lit "array") [])

/-- Whether `json.Unmarshal` of the bytes into a `Log` returns no error. -/
def decodes (data : GoString) : Bool :=
  match jsonUnmarshal data with
  | .ok _ => true
  | .error _ => false

/-- The members `json.Unmarshal` walks in the encoding of `a`: the seven keys
in the order written, the strings unquoted. -/
def memberList (a : Log) : List (GoString × JValue) :=
  [ (lit "ID", JValue.string (coerceUTF8 a.ID)),
    (lit "timestamp", JValue.string (coerceUTF8 a.Timestamp)),
    (lit "server", JValue.string (coerceUTF8 a.Server)),
    (lit "user", JValue.string (coerceUTF8 a.User)),
    (lit "event", JValue.string (coerceUTF8 a.Event)),
    (lit "port", JValue.number (appendInt a.Port.val)),
    (lit "ipAddress", JValue.string (coerceUTF8 a.IPAddress)) ]

/-- The keys of a JSON object in the order they stand in the bytes; `none`
for bytes that are not a JSON object. -/
def objectKeys (data : GoString) : Option (List GoString) :=
  match parseJSON data with
  | some (.object members) => some (members.map (·.1))
  | _ => none

/-! ## The world state -/

/-- Byte-lexicographic order of keys, strict. -/
def keyLt : GoString → GoString → Bool
  | [], [] => false
  | [], _ :: _ => true
  | _ :: _, [] => false
  | a :: as, b :: bs => decide (a < b) || (decide (a = b) && keyLt as bs)

/-- Strictly ascending in byte-lexicographic order. -/
def ascending : List GoString → Bool
  | [] => true
  | [_] => true
  | a :: b :: rest => keyLt a b && ascending (b :: rest)

/-- ASCII letters in lower case: the comparison key of a dictionary order
that ignores case. -/
def lowerASCII (s : GoString) : GoString :=
  s.map (fun c => if 65 ≤ c ∧ c ≤ 90 then c + 32 else c)

/-- The entry of a key in an entry list. -/
def lookupEntry (key : GoString) : List (GoString × GoString) → Option GoString
  | [] => none
  | (k, v) :: rest => if key = k then some v else lookupEntry key rest

/-- Upsert of one entry into an entry list kept in ascending key order. -/
def insertEntry (key value : GoString) :
    List (GoString × GoString) → List (GoString × GoString)
  | [] => [(key, value)]
  | (k, v) :: rest =>
    if keyLt key k then (key, value) :: (k, v) :: rest
    else if key = k then (key, value) :: rest
    else (k, v) :: insertEntry key value rest

/-- Modelled from the spec: the World State Store of the spec's external
interfaces, reached through the handle of one transaction (`ctx.GetStub()`),
whose implementation is outside the repository. `world` holds the entries in
ascending byte-lexicographic key order; `getErr`, `putErr`, `rangeErr` and
`nextErr` give the error message with which the store answers, during this
transaction, a `get`, a `put`, the opening of a range cursor and the n-th
`next()` of a cursor, `none` where the call goes through; `opened` counts the
cursors opened so far and `closed` lists the cursors closed so far, latest
first. Every transaction is called with a handle of its own: a following
transaction sees the entries the earlier one left, and the store may answer
its calls otherwise than it answered before (`Stub.following`). -/
structure Stub where
  world : List (GoString × GoString)
  getErr : GoString → Option GoString
  putErr : GoString → GoString → Option GoString
  rangeErr : Option GoString
  nextErr : Nat → Option GoString
  opened : Nat
  closed : List Nat

/-- Modelled from the spec: the handle of a following transaction, on the
world state and the cursors `ctx` leaves, where the store answers the calls as
`answers` does. -/
def Stub.following (ctx answers : Stub) : Stub :=
  { answers with world := ctx.world, opened := ctx.opened, closed := ctx.closed }

/-- The entries of the handle stand in strictly ascending key order. -/
def Stub.Sorted (ctx : Stub) : Bool := ascending (ctx.world.map (·.1))

/-- Every entry of the handle holds bytes that decode to a `Log`. -/
def Stub.WellFormed (ctx : Stub) : Bool := ctx.world.all (fun kv => decodes kv.2)

/-- A handle on an empty world state that answers every call. -/
def emptyStub : Stub :=
  { world := [], getErr := fun _ => none, putErr := fun _ _ => none, rangeErr := none,
    nextErr := fun _ => none, opened := 0, closed := [] }

/-- A handle on an empty world state whose `get` fails with the message `down`. -/
def getDownStub : Stub :=
  { emptyStub with getErr := fun _ => some (lit "down") }

/-- Modelled from the spec: the range cursor, with the entries it has yet to
yield, the number of `next()` calls made and its number among the cursors of
the handle. -/
structure Iterator where
  pending : List (GoString × GoString)
  index : Nat
  id : Nat

/-- Modelled from the spec: `get(key) -> bytes | absent`; `none` is Go's
`nil` slice. -/
def Stub.GetState (ctx : Stub) (key : GoString) : Except GoString (Option GoString) :=
  match ctx.getErr key with
  | some e => .error e
  | none => .ok (lookupEntry key ctx.world)

/-- Modelled from the spec: `put(key, value) -> ok | error`, an unconditional
upsert; a failed put writes nothing. -/
def Stub.PutState (ctx : Stub) (key value : GoString) : Option GoString × Stub :=
  match ctx.putErr key value with
  | some e => (some e, ctx)
  | none => (none, { ctx with world := insertEntry key value ctx.world })

/-- Modelled from the spec: `iterate(startKey, endKey) -> cursor`, an empty
bound meaning no bound, the entries in ascending key order. -/
def Stub.GetStateByRange (ctx : Stub) (startKey endKey : GoString) :
    Except GoString Iterator × Stub :=
  match ctx.rangeErr with
  | some e => (.error e, ctx)
  | none =>
    (.ok { pending := ctx.world.filter (fun kv =>
              (decide (startKey = []) || !keyLt kv.1 startKey)
                && (decide (endKey = []) || keyLt kv.1 endKey)),
           index := 0, id := ctx.opened },
     { ctx with opened := ctx.opened + 1 })

/-- Modelled from the spec: `hasNext()` of the cursor. -/
def Iterator.HasNext (it : Iterator) : Bool := !it.pending.isEmpty

/-- Modelled from the spec: `next()` of the cursor: the next entry, or the
error of the store; the call is counted either way. -/
def Iterator.Next (ctx : Stub) (it : Iterator) :
    Except GoString (GoString × GoString) × Iterator :=
  match ctx.nextErr it.index, it.pending with
  | some e, _ => (.error e, { it with index := it.index + 1 })
  | none, [] => (.error (lit "no more results"), { it with index := it.index + 1 })
  | none, kv :: rest => (.ok kv, { it with pending := rest, index := it.index + 1 })

/-- Modelled from the spec: `close()` of the cursor, recorded on the handle. -/
def Iterator.Close (it : Iterator) (ctx : Stub) : Stub :=
  { ctx with closed := it.id :: ctx.closed }

/-! ## The contract -/

/-- The six records written by `InitLedger`. -/
def seedAssets : List Log :=
  [ { ID := lit "log1", Timestamp := lit "2020-06-25 01:53:37", Server := lit "mailsv1",
      User := lit "guest", Event := lit "access denied", Port := ⟨20, by decide⟩,
      IPAddress := lit "168.156.11.24" },
    { ID := lit "log2", Timestamp := lit "2020-08-19 16:51:15", Server := lit "mailsv1",
      User := lit "guest", Event := lit "access denied", Port := ⟨22, by decide⟩,
      IPAddress := lit "168.156.11.24" },
    { ID := lit "log3", Timestamp := lit "2020-06-06 18:57:31", Server := lit "websv2",
      User := lit "guest", Event := lit "access denied", Port := ⟨80, by decide⟩,
      IPAddress := lit "168.156.11.24" },
    { ID := lit "log4", Timestamp := lit "2021-04-04 21:47:12", Server := lit "mailsv1",
      User := lit "guest", Event := lit "access denied", Port := ⟨20, by decide⟩,
      IPAddress := lit "168.156.11.24" },
    { ID := lit "log5", Timestamp := lit "2022-04-08 05:12:14", Server := lit "mailsv1",
      User := lit "guest", Event := lit "access denied", Port := ⟨20, by decide⟩,
      IPAddress := lit "168.156.11.24" },
    { ID := lit "log6", Timestamp := lit "2024-05-06 10:28:58", Server := lit "mailsv1",
      User := lit "guest", Event := lit "access denied", Port := ⟨20, by decide⟩,
      IPAddress := lit "168.156.11.24" } ]

/-- The key list `log1 .. log6`. -/
def seedIDs : List GoString :=
  [lit "log1", lit "log2", lit "log3", lit "log4", lit "log5", lit "log6"]

/-- The keys of the encoding in the order the struct encoder writes them. -/
def encodedKeys : List GoString :=
  [lit "ID", lit "timestamp", lit "server", lit "user", lit "event", lit "port",
   lit "ipAddress"]

/-- The names of the fields of `Log` in the order of the declaration. -/
def declaredNames : List GoString :=
  [lit "ID", lit "Timestamp", lit "Server", lit "User", lit "Event", lit "Port",
   lit "IPAddress"]

/-- The loop of `InitLedger` over the remaining assets: marshal, put, stop at
the first error. -/
def putAssets (ctx : Stub) : List Log → Option GoError × Stub
  | [] => (none, ctx)
  | asset :: rest =>
    match jsonMarshal asset with
    | .error e => (some e, ctx)
    | .ok assetJSON =>
      match ctx.PutState asset.ID assetJSON with
      | (some e, ctx1) =>
        (some (.errorf (lit "failed to put to world state. " ++ e)), ctx1)
      | (none, ctx1) => putAssets ctx1 rest

/-- The transaction `InitLedger`: the returned error (`none` for `nil`) and the handle
afterwards. -/
def InitLedger (ctx : Stub) : Option GoError × Stub :=
  putAssets ctx seedAssets

/-- The transaction `AssetExists`. -/
def AssetExists (ctx : Stub) (id : GoString) : Except GoError Bool × Stub :=
  match ctx.GetState id with
  | .error e => (.error (.errorf (lit "failed to read from world state: " ++ e)), ctx)
  | .ok assetJSON => (.ok assetJSON.isSome, ctx)

/-- The transaction `CreateAsset`. -/
def CreateAsset (ctx : Stub) (id timestamp server user event : GoString) (port : GoInt)
    (ipAddress : GoString) : Option GoError × Stub :=
  match AssetExists ctx id with
  | (.error e, ctx1) => (some e, ctx1)
  | (.ok isThere, ctx1) =>
    if isThere then
      (some (.errorf (lit "the log " ++ id ++ lit " already exists")), ctx1)
    else
      match jsonMarshal { ID := id, Timestamp := timestamp, Server := server, User := user,
                          Event := event, Port := port, IPAddress := ipAddress } with
      | .error e => (some e, ctx1)
      | .ok assetJSON =>
        match ctx1.PutState id assetJSON with
        | (some e, ctx2) => (some (.stub e), ctx2)
        | (none, ctx2) => (none, ctx2)

/-- The transaction `ReadAsset`. -/
def ReadAsset (ctx : Stub) (id : GoString) : Except GoError Log × Stub :=
  match ctx.GetState id with
  | .error e => (.error (.errorf (lit "failed to read from world state: " ++ e)), ctx)
  | .ok none => (.error (.errorf (lit "the asset " ++ id ++ lit " does not exist")), ctx)
  | .ok (some assetJSON) =>
    match jsonUnmarshal assetJSON with
    | .error e => (.error e, ctx)
    | .ok asset => (.ok asset, ctx)

/-- The `for resultsIterator.HasNext()` loop of `GetAllAssets`: the result of
the function body and the cursor where the body leaves it; `fuel` bounds the
iterations, and `GetAllAssets` passes one more than the number of pending
entries, so the bound is never reached. -/
def scanAssets (ctx : Stub) : Nat → Iterator → List Log → Except GoError (List Log) × Iterator
  | 0, it, _ => (.error .syntaxError, it)
  | fuel + 1, it, assets =>
    if it.HasNext then
      match it.Next ctx with
      | (.error e, it1) => (.error (.stub e), it1)
      | (.ok queryResponse, it1) =>
        match jsonUnmarshal queryResponse.2 with
        | .error e => (.error e, it1)
        | .ok asset => scanAssets ctx fuel it1 (assets ++ [asset])
    else (.ok assets, it)

/-- The transaction `GetAllAssets`: the cursor over `("", "")` is opened, the body runs,
and the deferred `Close` runs on the way out of every return of the body. -/
def GetAllAssets (ctx : Stub) : Except GoError (List Log) × Stub :=
  match ctx.GetStateByRange [] [] with
  | (.error e, ctx1) => (.error (.stub e), ctx1)
  | (.ok resultsIterator, ctx1) =>
    let body := scanAssets ctx1 (resultsIterator.pending.length + 1) resultsIterator []
    (body.1, body.2.Close ctx1)

/-- The store left by `InitLedger` on an empty world state, with a range
cursor that cannot be opened (message `down`). -/
def rangeDownStub : Stub :=
  { (InitLedger emptyStub).2 with rangeErr := some (lit "down") }

/-- The store left by `InitLedger` on an empty world state, whose third
`next()` fails (message `down`). -/
def nextDownStub : Stub :=
  { (InitLedger emptyStub).2 with nextErr := fun n => if n = 2 then some (lit "down") else none }

/-- The store left by `InitLedger` on an empty world state with the entry of
`log3` overwritten by bytes that are no JSON. -/
def brokenEntryStub : Stub :=
  { emptyStub with world := insertEntry (lit "log3") (lit "not json") (InitLedger emptyStub).2.world }

/-- A handle on a world state whose one entry, under `log1`, holds no bytes:
`get` answers with a slice that is not `nil` and has length zero. -/
def emptyEntryStub : Stub :=
  { emptyStub with world := [(lit "log1", [])] }

/-! # Theorems -/

set_option maxRecDepth 100000

/-! ## unicode/utf8: decoding and encoding agree -/

theorem leadInfo_some {p0 sz lo hi : Nat} (h : leadInfo p0 = some (sz, lo, hi)) :
    0x80 ≤ lo ∧ hi ≤ 0xBF ∧
    ((sz = 2 ∧ 0xC2 ≤ p0 ∧ p0 ≤ 0xDF) ∨
     (sz = 3 ∧ 0xE0 ≤ p0 ∧ p0 ≤ 0xEF ∧ (p0 = 0xE0 → lo = 0xA0) ∧ (p0 = 0xED → hi = 0x9F)) ∨
     (sz = 4 ∧ 0xF0 ≤ p0 ∧ p0 ≤ 0xF4 ∧ (p0 = 0xF0 → lo = 0x90) ∧ (p0 = 0xF4 → hi = 0x8F))) := by
  unfold leadInfo at h
  split_ifs at h <;> simp only [Option.some.injEq, Prod.mk.injEq] at h <;>
    obtain ⟨rfl, rfl, rfl⟩ := h <;> omega

theorem decodeRune_spec (b : Nat) (rest : GoString) (hb : 0x80 ≤ b) :
    decodeRune (b :: rest) = (RuneError, 1) ∨
    ∃ enc tail r, b :: rest = enc ++ tail ∧ 2 ≤ enc.length ∧ encodeRune r = enc ∧
      (∀ x ∈ enc, 0x80 ≤ x) ∧ 0x80 ≤ r ∧ ∀ t, decodeRune (enc ++ t) = (r, enc.length) := by
  have hb' : ¬ b < 0x80 := by omega
  cases hl : leadInfo b with
  | none => left; simp [decodeRune, hl, hb']
  | some t =>
    obtain ⟨sz, lo, hi⟩ := t
    obtain ⟨hlo, hhi, hcase⟩ := leadInfo_some hl
    rcases rest with _ | ⟨b1, rest1⟩
    · left; simp [decodeRune, hl, hb']
    by_cases h1 : b1 < lo ∨ hi < b1
    · left; simp [decodeRune, hl, hb', h1]
    by_cases hs2 : sz ≤ 2
    · right
      refine ⟨[b, b1], rest1, b % 32 * 64 + b1 % 64, rfl, by simp, ?_, ?_, ?_, ?_⟩
      · unfold encodeRune
        have e1 : ¬ (b % 32 * 64 + b1 % 64 ≤ 0x7F) := by omega
        have e2 : b % 32 * 64 + b1 % 64 ≤ 0x7FF := by omega
        simp only [e1, e2, if_true, if_false]
        congr 1
        · omega
        · congr 1; omega
      · intro x hx; simp at hx; omega
      · omega
      · intro t; simp [decodeRune, hl, hb', h1, hs2]
    rcases rest1 with _ | ⟨b2, rest2⟩
    · left; simp [decodeRune, hl, hb', h1, hs2]
    by_cases h2 : b2 < 0x80 ∨ 0xBF < b2
    · left; simp [decodeRune, hl, hb', h1, hs2, h2]
    by_cases hs3 : sz ≤ 3
    · right
      refine ⟨[b, b1, b2], rest2, b % 16 * 4096 + b1 % 64 * 64 + b2 % 64, rfl, by simp,
        ?_, ?_, ?_, ?_⟩
      · unfold encodeRune
        have e1 : ¬ (b % 16 * 4096 + b1 % 64 * 64 + b2 % 64 ≤ 0x7F) := by omega
        have e2 : ¬ (b % 16 * 4096 + b1 % 64 * 64 + b2 % 64 ≤ 0x7FF) := by omega
        have e3 : ¬ (0x10FFFF < b % 16 * 4096 + b1 % 64 * 64 + b2 % 64 ∨
            (0xD800 ≤ b % 16 * 4096 + b1 % 64 * 64 + b2 % 64 ∧
              b % 16 * 4096 + b1 % 64 * 64 + b2 % 64 ≤ 0xDFFF)) := by omega
        have e4 : b % 16 * 4096 + b1 % 64 * 64 + b2 % 64 ≤ 0xFFFF := by omega
        simp only [e1, e2, e3, e4, if_true, if_false]
        congr 1
        · omega
        · congr 1
          · omega
          · congr 1; omega
      · intro x hx; simp at hx; omega
      · omega
      · intro t; simp [decodeRune, hl, hb', h1, hs2, h2, hs3]
    rcases rest2 with _ | ⟨b3, rest3⟩
    · left; simp [decodeRune, hl, hb', h1, hs2, h2, hs3]
    by_cases h3 : b3 < 0x80 ∨ 0xBF < b3
    · left; simp [decodeRune, hl, hb', h1, hs2, h2, hs3, h3]
    right
    refine ⟨[b, b1, b2, b3], rest3,
      b % 8 * 262144 + b1 % 64 * 4096 + b2 % 64 * 64 + b3 % 64, rfl, by simp, ?_, ?_, ?_, ?_⟩
    · unfold encodeRune
      have e1 : ¬ (b % 8 * 262144 + b1 % 64 * 4096 + b2 % 64 * 64 + b3 % 64 ≤ 0x7F) := by omega
      have e2 : ¬ (b % 8 * 262144 + b1 % 64 * 4096 + b2 % 64 * 64 + b3 % 64 ≤ 0x7FF) := by
        omega
      have e3 : ¬ (0x10FFFF < b % 8 * 262144 + b1 % 64 * 4096 + b2 % 64 * 64 + b3 % 64 ∨
          (0xD800 ≤ b % 8 * 262144 + b1 % 64 * 4096 + b2 % 64 * 64 + b3 % 64 ∧
            b % 8 * 262144 + b1 % 64 * 4096 + b2 % 64 * 64 + b3 % 64 ≤ 0xDFFF)) := by omega
      have e4 : ¬ (b % 8 * 262144 + b1 % 64 * 4096 + b2 % 64 * 64 + b3 % 64 ≤ 0xFFFF) := by
        omega
      simp only [e1, e2, e3, e4, if_true, if_false]
      congr 1
      · omega
      · congr 1
        · omega
        · congr 1
          · omega
          · congr 1; omega
    · intro x hx; simp at hx; omega
    · omega
    · intro t; simp [decodeRune, hl, hb', h1, hs2, h2, hs3, h3]

/-! ## Bounds of the loops over strings -/

/-- A rune that starts with a non-ASCII byte takes at least one byte and no
more than the input has: every loop over runes moves forward. -/
theorem decodeRune_size (b : Nat) (rest : GoString) (hb : 0x80 ≤ b) :
    1 ≤ (decodeRune (b :: rest)).2 ∧ (decodeRune (b :: rest)).2 ≤ rest.length + 1 := by
  rcases decodeRune_spec b rest hb with hd | ⟨enc, tl, r, hs, hl, _, _, _, hdec⟩
  · rw [hd]; simp
  · have h1 := hdec tl
    rw [← hs] at h1
    have h2 : (b :: rest).length = enc.length + tl.length := by rw [hs, List.length_append]
    rw [h1]
    simp only [List.length_cons] at h2
    simp only
    omega

theorem drop_decodeRune_length (b : Nat) (rest : GoString) (hb : 0x80 ≤ b) :
    ((b :: rest).drop (decodeRune (b :: rest)).2).length ≤ rest.length := by
  have := decodeRune_size b rest hb
  simp only [List.length_drop, List.length_cons]
  omega

/-- The loop of `appendString` does not depend on the bound once the bound
covers the input: `appendString` writes the whole string. -/
theorem appendStringLoop_fuel (f1 : Nat) : ∀ (f2 : Nat) (s : GoString),
    s.length ≤ f1 → s.length ≤ f2 → appendStringLoop f1 s = appendStringLoop f2 s := by
  induction f1 with
  | zero =>
    intro f2 s h1 _
    obtain rfl : s = [] := List.length_eq_zero.1 (by omega)
    cases f2 <;> rfl
  | succ f1 ih =>
    intro f2 s h1 h2
    rcases s with _ | ⟨b, rest⟩
    · cases f2 <;> rfl
    obtain ⟨f2, rfl⟩ : ∃ k, f2 = k + 1 := ⟨f2 - 1, by simp at h2; omega⟩
    simp only [List.length_cons] at h1 h2
    rw [appendStringLoop, appendStringLoop]
    by_cases hb : b < 0x80
    · simp only [hb, if_true]
      rw [ih f2 rest (by omega) (by omega)]
    · have hd := drop_decodeRune_length b rest (by omega)
      simp only [hb, if_false]
      rw [ih f2 rest (by omega) (by omega), ih f2 _ (by omega) (by omega)]

/-- The loop of `coerceUTF8` does not depend on the bound once the bound
covers the input. -/
theorem coerceLoop_fuel (f1 : Nat) : ∀ (f2 : Nat) (s : GoString),
    s.length ≤ f1 → s.length ≤ f2 → coerceLoop f1 s = coerceLoop f2 s := by
  induction f1 with
  | zero =>
    intro f2 s h1 _
    obtain rfl : s = [] := List.length_eq_zero.1 (by omega)
    cases f2 <;> rfl
  | succ f1 ih =>
    intro f2 s h1 h2
    rcases s with _ | ⟨b, rest⟩
    · cases f2 <;> rfl
    obtain ⟨f2, rfl⟩ : ∃ k, f2 = k + 1 := ⟨f2 - 1, by simp at h2; omega⟩
    simp only [List.length_cons] at h1 h2
    rw [coerceLoop, coerceLoop]
    by_cases hb : b < 0x80
    · simp only [hb, if_true]
      rw [ih f2 rest (by omega) (by omega)]
    · have hd := drop_decodeRune_length b rest (by omega)
      simp only [hb, if_false]
      rw [ih f2 rest (by omega) (by omega), ih f2 _ (by omega) (by omega)]

/-- The loop of `utf8.Valid` does not depend on the bound once the bound
covers the input. -/
theorem validLoop_fuel (f1 : Nat) : ∀ (f2 : Nat) (s : GoString),
    s.length ≤ f1 → s.length ≤ f2 → validLoop f1 s = validLoop f2 s := by
  induction f1 with
  | zero =>
    intro f2 s h1 _
    obtain rfl : s = [] := List.length_eq_zero.1 (by omega)
    cases f2 <;> rfl
  | succ f1 ih =>
    intro f2 s h1 h2
    rcases s with _ | ⟨b, rest⟩
    · cases f2 <;> rfl
    obtain ⟨f2, rfl⟩ : ∃ k, f2 = k + 1 := ⟨f2 - 1, by simp at h2; omega⟩
    simp only [List.length_cons] at h1 h2
    rw [validLoop, validLoop]
    by_cases hb : b < 0x80
    · simp only [hb, if_true]
      rw [ih f2 rest (by omega) (by omega)]
    · have hd := drop_decodeRune_length b rest (by omega)
      simp only [hb, if_false]
      rw [ih f2 _ (by omega) (by omega)]

/-- The first loop of `unquoteBytes` does not depend on the bound once the
bound covers the input. -/
theorem cleanPrefix_fuel (f1 : Nat) : ∀ (f2 : Nat) (s : GoString),
    s.length ≤ f1 → s.length ≤ f2 → cleanPrefix f1 s = cleanPrefix f2 s := by
  induction f1 with
  | zero =>
    intro f2 s h1 _
    obtain rfl : s = [] := List.length_eq_zero.1 (by omega)
    cases f2 <;> rfl
  | succ f1 ih =>
    intro f2 s h1 h2
    rcases s with _ | ⟨b, rest⟩
    · cases f2 <;> rfl
    obtain ⟨f2, rfl⟩ : ∃ k, f2 = k + 1 := ⟨f2 - 1, by simp at h2; omega⟩
    simp only [List.length_cons] at h1 h2
    rw [cleanPrefix, cleanPrefix]
    by_cases hb : b < 0x80
    · by_cases hc : b = 92 ∨ b = 34 ∨ b < 32
      · simp only [hc, if_true]
      · simp only [hc, hb, if_true, if_false]
        rw [ih f2 rest (by omega) (by omega)]
    · have hd := drop_decodeRune_length b rest (by omega)
      have hc : ¬ (b = 92 ∨ b = 34 ∨ b < 32) := by omega
      simp only [hb, hc, if_false]
      rw [ih f2 _ (by omega) (by omega)]

theorem unquoteEscape_length (rest out r : GoString) (h : unquoteEscape rest = some (out, r)) :
    r.length < rest.length := by
  rcases rest with _ | ⟨e, rest1⟩
  · simp [unquoteEscape] at h
  rw [unquoteEscape] at h
  split_ifs at h
  all_goals first
    | (simp only [Option.some.injEq, Prod.mk.injEq] at h
       obtain ⟨_, rfl⟩ := h
       simp only [List.length_cons]
       omega)
    | skip
  · cases hg : getu4 (92 :: e :: rest1) with
    | none => simp [hg] at h
    | some rr =>
      simp only [hg] at h
      split_ifs at h <;>
        (simp only [Option.some.injEq, Prod.mk.injEq] at h
         obtain ⟨_, rfl⟩ := h
         simp only [List.length_drop, List.length_cons]
         omega)

/-- The second loop of `unquoteBytes` does not depend on the bound once the
bound covers the input. -/
theorem unquoteLoop_fuel (f1 : Nat) : ∀ (f2 : Nat) (s : GoString),
    s.length ≤ f1 → s.length ≤ f2 → unquoteLoop f1 s = unquoteLoop f2 s := by
  induction f1 with
  | zero =>
    intro f2 s h1 _
    obtain rfl : s = [] := List.length_eq_zero.1 (by omega)
    cases f2 <;> rfl
  | succ f1 ih =>
    intro f2 s h1 h2
    rcases s with _ | ⟨c, rest⟩
    · cases f2 <;> rfl
    obtain ⟨f2, rfl⟩ : ∃ k, f2 = k + 1 := ⟨f2 - 1, by simp at h2; omega⟩
    simp only [List.length_cons] at h1 h2
    rw [unquoteLoop, unquoteLoop]
    by_cases hc : c = 92
    · simp only [hc, if_true]
      cases he : unquoteEscape rest with
      | none => rfl
      | some p =>
        obtain ⟨out, r⟩ := p
        have := unquoteEscape_length rest out r he
        simp only
        rw [ih f2 r (by omega) (by omega)]
    · simp only [hc, if_false]
      by_cases hq : c = 34 ∨ c < 32
      · simp only [hq, if_true]
      · simp only [hq, if_false]
        by_cases hb : c < 0x80
        · simp only [hb, if_true]
          rw [ih f2 rest (by omega) (by omega)]
        · have hd := drop_decodeRune_length c rest (by omega)
          simp only [hb, if_false]
          rw [ih f2 _ (by omega) (by omega)]

/-! ## String literals: written, scanned, unquoted -/

theorem hexVal_hexDigit (n : Nat) (h : n < 16) : hexVal (hexDigit n) = some n := by
  unfold hexDigit hexVal
  split_ifs <;> first | omega | (simp only [Option.some.injEq]; omega)

theorem scanString_plain (c : Nat) (t : GoString) (h1 : 32 ≤ c) (h2 : c ≠ 34) (h3 : c ≠ 92) :
    scanString (c :: t) = (scanString t).map (fun p => (c :: p.1, p.2)) := by
  rw [scanString.eq_def]; simp only [h2, h3, Nat.not_lt.2 h1, if_false]

theorem scanString_raw (enc t : GoString) (h : ∀ x ∈ enc, 0x80 ≤ x) :
    scanString (enc ++ t) = (scanString t).map (fun p => (enc ++ p.1, p.2)) := by
  induction enc with
  | nil => simp
  | cons c enc ih =>
    have hc : 0x80 ≤ c := h c (by simp)
    rw [List.cons_append, scanString_plain c _ (by omega) (by omega) (by omega),
      ih (fun x hx => h x (by simp [hx]))]
    cases scanString t <;> simp

theorem scanString_esc (e : Nat) (t : GoString)
    (h : e = 98 ∨ e = 102 ∨ e = 110 ∨ e = 114 ∨ e = 116 ∨ e = 92 ∨ e = 47 ∨ e = 34) :
    scanString (92 :: e :: t) = (scanString t).map (fun p => (92 :: e :: p.1, p.2)) := by
  rw [scanString.eq_def]; simp only [h, if_true]; simp

theorem scanString_escU (h1 h2 h3 h4 : Nat) (t : GoString)
    (k1 : (hexVal h1).isSome) (k2 : (hexVal h2).isSome) (k3 : (hexVal h3).isSome)
    (k4 : (hexVal h4).isSome) :
    scanString (92 :: 117 :: h1 :: h2 :: h3 :: h4 :: t)
      = (scanString t).map (fun p => (92 :: 117 :: h1 :: h2 :: h3 :: h4 :: p.1, p.2)) := by
  rw [scanString.eq_def]; simp [k1, k2, k3, k4]


theorem scanString_quote (t : GoString) : scanString (34 :: t) = some ([], t) := by
  rw [scanString.eq_def]; simp

theorem htmlSafe_true {b : Nat} (h : htmlSafe b = true) :
    32 ≤ b ∧ b < 128 ∧ b ≠ 34 ∧ b ≠ 38 ∧ b ≠ 60 ∧ b ≠ 62 ∧ b ≠ 92 := by
  simpa [htmlSafe] using h

theorem scanString_escapeByte (b : Nat) (t : GoString) (hb : b < 0x80) :
    scanString (escapeByte b ++ t) = (scanString t).map (fun p => (escapeByte b ++ p.1, p.2)) := by
  unfold escapeByte
  split_ifs with h1
  · rcases h1 with rfl | rfl <;> simp [scanString_esc]
  all_goals first
    | (simp [scanString_esc]; done)
    | exact scanString_escU _ _ _ _ _ (by decide) (by decide)
        (by rw [hexVal_hexDigit _ (by omega)]; rfl)
        (by rw [hexVal_hexDigit _ (by omega)]; rfl)

theorem scanString_appendStringLoop (f : Nat) : ∀ (s tail : GoString),
    scanString (appendStringLoop f s ++ 34 :: tail) = some (appendStringLoop f s, tail) := by
  induction f with
  | zero => intro s tail; cases s <;> simp [appendStringLoop, scanString_quote]
  | succ f ih =>
    intro s tail
    rcases s with _ | ⟨b, rest⟩
    · simp [appendStringLoop, scanString_quote]
    rw [appendStringLoop]
    by_cases hb : b < 0x80
    · simp only [hb, if_true]
      by_cases hs : htmlSafe b = true
      · obtain ⟨h1, _, h2, _, _, _, h3⟩ := htmlSafe_true hs
        simp only [hs, if_true, List.cons_append, List.nil_append]
        rw [scanString_plain b _ h1 h2 h3, ih]; rfl
      · rw [if_neg hs, List.append_assoc, scanString_escapeByte b _ hb, ih]; rfl
    · simp only [hb, if_false]
      rcases decodeRune_spec b rest (by omega) with hd | ⟨enc, tl, r, hsplit, hlen, henc, hge, hr, hdec⟩
      · simp only [hd, and_self, if_true, List.cons_append, List.nil_append]
        rw [scanString_escU _ _ _ _ _ (by decide) (by decide) (by decide) (by decide), ih]; rfl
      · have hd := hdec tl
        rw [← hsplit] at hd
        have hne : ¬ (r = RuneError ∧ enc.length = 1) := by omega
        simp only [hd, hne, if_false]
        rw [hsplit, List.take_left, List.drop_left]
        split_ifs with h28
        · simp only [List.cons_append, List.nil_append]
          rw [scanString_escU _ _ _ _ _ (by decide) (by decide) (by decide)
            (by rcases h28 with h | h <;> rw [h] <;> decide), ih]; rfl
        · rw [List.append_assoc, scanString_raw enc _ hge, ih]; rfl
theorem unquoteLoop_plain (g c : Nat) (t : GoString) (h1 : 32 ≤ c) (h2 : c ≠ 34) (h3 : c ≠ 92)
    (h4 : c < 0x80) :
    unquoteLoop (g + 1) (c :: t) = (unquoteLoop g t).map (c :: ·) := by
  rw [unquoteLoop.eq_def]; simp [h2, h3, Nat.not_lt.2 h1, h4]


theorem unquoteLoop_escapeByte (g b : Nat) (t : GoString) (hb : b < 0x80) :
    unquoteLoop (g + 1) (escapeByte b ++ t) = (unquoteLoop g t).map (b :: ·) := by
  unfold escapeByte
  split_ifs with h1
  · rcases h1 with rfl | rfl <;> simp [unquoteLoop, unquoteEscape]
  all_goals first
    | (subst_vars; simp [unquoteLoop, unquoteEscape]; done)
    | skip
  have e1 : hexVal (hexDigit (b / 16)) = some (b / 16) := hexVal_hexDigit _ (by omega)
  have e2 : hexVal (hexDigit (b % 16)) = some (b % 16) := hexVal_hexDigit _ (by omega)
  have e0 : hexVal 48 = some 0 := by decide
  have hv : b / 16 * 16 + b % 16 = b := by omega
  have hs : isSurrogate b = false := by simp [isSurrogate]; omega
  have he : encodeRune b = [b] := by simp [encodeRune]; omega
  simp [unquoteLoop, unquoteEscape, getu4, e0, e1, e2, hv, hs, he]


theorem unquoteLoop_ufffd (g : Nat) (t : GoString) :
    unquoteLoop (g + 1) (92 :: 117 :: 102 :: 102 :: 102 :: 100 :: t)
      = (unquoteLoop g t).map ([0xEF, 0xBF, 0xBD] ++ ·) := by
  have h1 : hexVal 102 = some 15 := by decide
  have h2 : hexVal 100 = some 13 := by decide
  have hs : isSurrogate 65533 = false := by decide
  have he : encodeRune 65533 = [0xEF, 0xBF, 0xBD] := by decide
  simp [unquoteLoop, unquoteEscape, getu4, h1, h2, hs, he]

theorem unquoteLoop_u202x (g r : Nat) (t : GoString) (hr : r = 0x2028 ∨ r = 0x2029) :
    unquoteLoop (g + 1) (92 :: 117 :: 50 :: 48 :: 50 :: hexDigit (r % 16) :: t)
      = (unquoteLoop g t).map (encodeRune r ++ ·) := by
  have h1 : hexVal 50 = some 2 := by decide
  have h0 : hexVal 48 = some 0 := by decide
  rcases hr with rfl | rfl
  · have h2 : hexVal (hexDigit (0x2028 % 16)) = some 8 := by decide
    have hs : isSurrogate 8232 = false := by decide
    simp [unquoteLoop, unquoteEscape, getu4, h1, h0, h2, hs]
  · have h2 : hexVal (hexDigit (0x2029 % 16)) = some 9 := by decide
    have hs : isSurrogate 8233 = false := by decide
    simp [unquoteLoop, unquoteEscape, getu4, h1, h0, h2, hs]

theorem unquoteLoop_raw (g r : Nat) (enc t : GoString) (hlen : 2 ≤ enc.length)
    (henc : encodeRune r = enc) (hge : ∀ x ∈ enc, 0x80 ≤ x)
    (hdec : decodeRune (enc ++ t) = (r, enc.length)) :
    unquoteLoop (g + 1) (enc ++ t) = (unquoteLoop g t).map (enc ++ ·) := by
  rcases enc with _ | ⟨b, enc1⟩
  · simp at hlen
  have hb : 0x80 ≤ b := hge b (by simp)
  rw [List.cons_append, unquoteLoop]
  have h1 : ¬ b = 92 := by omega
  have h2 : ¬ (b = 34 ∨ b < 32) := by omega
  have h3 : ¬ b < 0x80 := by omega
  rw [List.cons_append] at hdec
  simp only [h1, h2, h3, if_false, hdec, henc]
  rw [← List.cons_append, List.drop_left]

theorem unquoteLoop_appendStringLoop (f : Nat) : ∀ (s : GoString) (g : Nat),
    (appendStringLoop f s).length ≤ g →
    unquoteLoop g (appendStringLoop f s) = some (coerceLoop f s) := by
  induction f with
  | zero => intro s g _; cases s <;> simp [appendStringLoop, coerceLoop, unquoteLoop]
  | succ f ih =>
    intro s g hg
    rcases s with _ | ⟨b, rest⟩
    · simp [appendStringLoop, coerceLoop, unquoteLoop]
    rw [appendStringLoop] at hg ⊢
    rw [coerceLoop]
    by_cases hb : b < 0x80
    · simp only [hb, if_true] at hg ⊢
      by_cases hs : htmlSafe b = true
      · obtain ⟨h1, h4, h2, _, _, _, h3⟩ := htmlSafe_true hs
        simp only [hs, if_true, List.cons_append, List.nil_append, List.length_cons] at hg ⊢
        obtain ⟨g, rfl⟩ : ∃ k, g = k + 1 := ⟨g - 1, by omega⟩
        rw [unquoteLoop_plain g b _ h1 h2 h3 h4, ih rest g (by omega)]; rfl
      · rw [if_neg hs] at hg ⊢
        have hl : 1 ≤ (escapeByte b).length := by
          unfold escapeByte; split_ifs <;> simp
        rw [List.length_append] at hg
        obtain ⟨g, rfl⟩ : ∃ k, g = k + 1 := ⟨g - 1, by omega⟩
        rw [unquoteLoop_escapeByte g b _ hb, ih rest g (by omega)]; rfl
    · simp only [hb, if_false] at hg ⊢
      rcases decodeRune_spec b rest (by omega) with hd | ⟨enc, tl, r, hsplit, hlen, henc, hge, hr, hdec⟩
      · simp only [hd, and_self, if_true, List.cons_append, List.nil_append,
          List.length_cons] at hg ⊢
        obtain ⟨g, rfl⟩ : ∃ k, g = k + 1 := ⟨g - 1, by omega⟩
        rw [unquoteLoop_ufffd, ih rest g (by omega)]; rfl
      · have hd := hdec tl
        rw [← hsplit] at hd
        have hne : ¬ (r = RuneError ∧ enc.length = 1) := by omega
        have hne1 : ¬ enc.length = 1 := by omega
        simp only [hd] at hg ⊢
        rw [if_neg hne] at hg
        rw [if_neg hne, if_neg hne1]
        rw [hsplit, List.take_left, List.drop_left] at hg ⊢
        by_cases h28 : r = 0x2028 ∨ r = 0x2029
        · rw [if_pos h28] at hg ⊢
          simp only [List.cons_append, List.nil_append, List.length_cons] at hg ⊢
          obtain ⟨g, rfl⟩ : ∃ k, g = k + 1 := ⟨g - 1, by omega⟩
          rw [unquoteLoop_u202x g r _ h28, ih tl g (by omega), henc]; rfl
        · rw [if_neg h28] at hg ⊢
          rw [List.length_append] at hg
          obtain ⟨g, rfl⟩ : ∃ k, g = k + 1 := ⟨g - 1, by omega⟩
          rw [unquoteLoop_raw g r enc _ hlen henc hge (hdec _), ih tl g (by omega)]; rfl


theorem cleanPrefix_backslash (g : Nat) (t : GoString) : cleanPrefix g (92 :: t) = 0 := by
  cases g <;> simp [cleanPrefix]

theorem cleanPrefix_plain (g c : Nat) (t : GoString) (h1 : 32 ≤ c) (h2 : c ≠ 34) (h3 : c ≠ 92)
    (h4 : c < 0x80) : cleanPrefix (g + 1) (c :: t) = 1 + cleanPrefix g t := by
  have h : ¬ (c = 92 ∨ c = 34 ∨ c < 32) := by omega
  simp only [cleanPrefix, h, h4, if_false, if_true]

theorem cleanPrefix_raw (g r : Nat) (enc t : GoString) (hlen : 2 ≤ enc.length)
    (hge : ∀ x ∈ enc, 0x80 ≤ x) (hdec : decodeRune (enc ++ t) = (r, enc.length)) :
    cleanPrefix (g + 1) (enc ++ t) = enc.length + cleanPrefix g t := by
  rcases enc with _ | ⟨b, enc1⟩
  · simp at hlen
  have hb : 0x80 ≤ b := hge b (by simp)
  have h : ¬ (b = 92 ∨ b = 34 ∨ b < 32) := by omega
  have h4 : ¬ b < 0x80 := by omega
  have hne : ¬ (r = RuneError ∧ (b :: enc1).length = 1) := by omega
  rw [List.cons_append] at hdec ⊢
  simp only [cleanPrefix, h, h4, if_false, hdec, hne]
  rw [← List.cons_append, List.drop_left]

theorem escapeByte_head (b : Nat) : ∃ t, escapeByte b = 92 :: t := by
  unfold escapeByte; split_ifs <;> exact ⟨_, rfl⟩

theorem unquoteBytes_aux (f : Nat) : ∀ (s : GoString) (g g' : Nat),
    (appendStringLoop f s).length ≤ g →
    (unquoteLoop g ((appendStringLoop f s).drop (cleanPrefix g' (appendStringLoop f s)))).map
      ((appendStringLoop f s).take (cleanPrefix g' (appendStringLoop f s)) ++ ·)
      = some (coerceLoop f s) := by
  induction f with
  | zero =>
    intro s g g' _
    cases s <;> cases g' <;> simp [appendStringLoop, coerceLoop, unquoteLoop, cleanPrefix]
  | succ f ih =>
    intro s g g' hg
    rcases g' with _ | g'
    · have h0 : ∀ x, cleanPrefix 0 x = 0 := by intro x; cases x <;> rfl
      rw [h0, List.drop_zero, List.take_zero, unquoteLoop_appendStringLoop _ _ _ hg]; rfl
    rcases s with _ | ⟨b, rest⟩
    · simp [appendStringLoop, coerceLoop, unquoteLoop, cleanPrefix]
    have key := unquoteLoop_appendStringLoop (f + 1) (b :: rest) g hg
    rw [appendStringLoop] at hg key ⊢
    rw [coerceLoop] at key ⊢
    by_cases hb : b < 0x80
    · simp only [hb, if_true] at hg key ⊢
      by_cases hs : htmlSafe b = true
      · obtain ⟨h1, h4, h2, _, _, _, h3⟩ := htmlSafe_true hs
        simp only [hs, if_true, List.cons_append, List.nil_append, List.length_cons] at hg ⊢
        rw [cleanPrefix_plain g' b _ h1 h2 h3 h4, Nat.add_comm 1, List.drop_succ_cons,
          List.take_succ_cons]
        obtain ⟨u, hu, hu2⟩ := Option.map_eq_some'.1 (ih rest g g' (by omega))
        rw [hu, Option.map_some', ← hu2]; rfl
      · rw [if_neg hs] at hg key ⊢
        obtain ⟨t, ht⟩ := escapeByte_head b
        rw [ht] at key ⊢
        rw [List.cons_append, cleanPrefix_backslash, List.drop_zero, List.take_zero] at *
        rw [key]; rfl
    · simp only [hb, if_false] at hg key ⊢
      rcases decodeRune_spec b rest (by omega) with hd | ⟨enc, tl, r, hsplit, hlen, henc, hge, hr, hdec⟩
      · simp only [hd, and_self, if_true] at hg key ⊢
        rw [List.cons_append, cleanPrefix_backslash, List.drop_zero, List.take_zero] at *
        rw [key]; rfl
      · have hd := hdec tl
        rw [← hsplit] at hd
        have hne : ¬ (r = RuneError ∧ enc.length = 1) := by omega
        have hne1 : ¬ enc.length = 1 := by omega
        simp only [hd] at hg key ⊢
        rw [if_neg hne] at hg key
        rw [if_neg hne1] at key
        rw [if_neg hne, if_neg hne1]
        rw [hsplit, List.take_left, List.drop_left] at hg key ⊢
        by_cases h28 : r = 0x2028 ∨ r = 0x2029
        · rw [if_pos h28] at hg key ⊢
          rw [List.cons_append, cleanPrefix_backslash, List.drop_zero, List.take_zero] at *
          rw [key]; rfl
        · rw [if_neg h28] at hg key ⊢
          rw [List.length_append] at hg
          rw [cleanPrefix_raw g' r enc _ hlen hge (hdec _), List.drop_append, List.take_append]
          obtain ⟨u, hu, hu2⟩ := Option.map_eq_some'.1 (ih tl g g' (by omega))
          rw [hu, Option.map_some', ← hu2, List.append_assoc]

theorem unquoteBytes_appendStringLoop (f : Nat) (s : GoString) :
    unquoteBytes (appendStringLoop f s) = some (coerceLoop f s) :=
  unquoteBytes_aux f s _ _ (Nat.le_refl _)


theorem coerceLoop_of_valid (f : Nat) : ∀ s : GoString, validLoop f s = true →
    coerceLoop f s = s := by
  induction f with
  | zero => intro s h; cases s <;> simp_all [validLoop, coerceLoop]
  | succ f ih =>
    intro s h
    rcases s with _ | ⟨b, rest⟩
    · rfl
    rw [validLoop] at h
    rw [coerceLoop]
    by_cases hb : b < 0x80
    · simp only [hb, if_true] at h ⊢
      rw [ih rest h]
    · simp only [hb, if_false] at h ⊢
      by_cases h1 : (decodeRune (b :: rest)).2 = 1
      · simp [h1] at h
      · simp only [h1, if_false] at h ⊢
        rw [ih _ h, List.take_append_drop]

theorem appendString_append (s tail : GoString) :
    appendString s ++ tail = 34 :: (appendStringLoop s.length s ++ 34 :: tail) := by
  simp [appendString]

theorem parseScalar_appendString (s tail : GoString) :
    parseScalar (appendString s ++ tail) = some (JValue.string (coerceUTF8 s), tail) := by
  rw [appendString_append, parseScalar, scanString_appendStringLoop]
  simp only [unquoteBytes_appendStringLoop, Option.map_some', coerceUTF8]

/-! ## Numbers: written, scanned, parsed -/

/-- The digits `formatBits` writes: all decimal, no leading zero except for
zero itself, and of the value `u`. -/
theorem formatBits_spec (f : Nat) : ∀ (u : Nat) (acc : GoString), u ≤ f →
    ∃ d ds, formatBits f u acc = d :: (ds ++ acc) ∧ isDigit d = true ∧ ds.all isDigit = true ∧
      (d = 48 → u = 0 ∧ ds = []) ∧
      (d :: ds).foldl (fun a c => a * 10 + (c - 48)) 0 = u := by
  induction f with
  | zero =>
    intro u acc hu
    obtain rfl : u = 0 := by omega
    exact ⟨48, [], rfl, by decide, rfl, fun _ => ⟨rfl, rfl⟩, rfl⟩
  | succ f ih =>
    intro u acc hu
    rw [formatBits]
    by_cases h : u < 10
    · rw [if_pos h]
      refine ⟨48 + u, [], rfl, by simp [isDigit]; omega, rfl, fun h0 => ⟨by omega, rfl⟩, by simp⟩
    · rw [if_neg h]
      obtain ⟨d, ds, h1, h2, h3, h4, h5⟩ := ih (u / 10) ((48 + u % 10) :: acc) (by omega)
      refine ⟨d, ds ++ [48 + u % 10], by rw [h1]; simp, h2, ?_, ?_, ?_⟩
      · simp [h3, isDigit]; omega
      · intro h0; have := (h4 h0).1; omega
      · rw [← List.cons_append, List.foldl_append, h5]; simp; omega

theorem span_digits (ds : GoString) (c : Nat) (tail : GoString) (h : ds.all isDigit = true)
    (hc : isDigit c = false) :
    (ds ++ c :: tail).takeWhile isDigit = ds ∧ (ds ++ c :: tail).dropWhile isDigit = c :: tail := by
  induction ds with
  | nil => simp [List.takeWhile, List.dropWhile, hc]
  | cons d ds ih =>
    simp only [List.all_cons, Bool.and_eq_true] at h
    obtain ⟨i1, i2⟩ := ih h.2
    simp [List.takeWhile, List.dropWhile, h.1, i1, i2]

theorem scanUnsigned_digits (d : Nat) (ds : GoString) (c : Nat) (tail : GoString)
    (hd : isDigit d = true) (hds : ds.all isDigit = true) (h0 : d = 48 → ds = [])
    (hc : isDigit c = false) (hc1 : c ≠ 46) (hc2 : c ≠ 101) (hc3 : c ≠ 69) :
    scanUnsigned (d :: (ds ++ c :: tail)) = some (d :: ds, c :: tail) := by
  obtain ⟨i1, i2⟩ := span_digits ds c tail hds hc
  have hf : scanFrac (c :: tail) = some ([], c :: tail) := by
    rw [scanFrac.eq_def]; split <;> simp_all
  have he : scanExp (c :: tail) = some ([], c :: tail) := by
    simp [scanExp, hc2, hc3]
  rw [scanUnsigned]
  by_cases hz : d = 48
  · obtain rfl := h0 hz
    subst hz
    simp [hd, hf, he]
  · simp [hd, hz, i1, i2, hf, he]


theorem appendInt_spec (i : Int) :
    ∃ sign d ds, appendInt i = sign ++ d :: ds ∧ (sign = [] ∧ 0 ≤ i ∨ sign = [45] ∧ i < 0) ∧
      isDigit d = true ∧ ds.all isDigit = true ∧ (d = 48 → ds = []) ∧
      (d :: ds).foldl (fun a c => a * 10 + (c - 48)) 0 = i.natAbs := by
  obtain ⟨d, ds, h1, h2, h3, h4, h5⟩ := formatBits_spec i.natAbs i.natAbs [] (Nat.le_refl _)
  rw [List.append_nil] at h1
  unfold appendInt
  by_cases h : i < 0
  · exact ⟨[45], d, ds, by rw [if_pos h, h1]; rfl, Or.inr ⟨rfl, h⟩, h2, h3,
      fun h0 => (h4 h0).2, h5⟩
  · exact ⟨[], d, ds, by rw [if_neg h, h1]; rfl, Or.inl ⟨rfl, by omega⟩, h2, h3,
      fun h0 => (h4 h0).2, h5⟩

theorem scanNumber_appendInt (i : Int) (c : Nat) (tail : GoString)
    (hc : isDigit c = false) (hc1 : c ≠ 46) (hc2 : c ≠ 101) (hc3 : c ≠ 69) :
    scanNumber (appendInt i ++ c :: tail) = some (appendInt i, c :: tail) := by
  obtain ⟨sign, d, ds, h1, h2, h3, h4, h5, _⟩ := appendInt_spec i
  have hsc := scanUnsigned_digits d ds c tail h3 h4 h5 hc hc1 hc2 hc3
  have hd45 : d ≠ 45 := by intro h; subst h; simp [isDigit] at h3
  rw [h1]
  rcases h2 with ⟨rfl, _⟩ | ⟨rfl, _⟩
  · rw [List.nil_append, List.cons_append, scanNumber.eq_def]
    split
    · rename_i heq; simp at heq; exact absurd heq.1 hd45
    · exact hsc
  · simp [scanNumber, hsc]

theorem parseScalar_appendInt (i : Int) (c : Nat) (tail : GoString)
    (hc : isDigit c = false) (hc1 : c ≠ 46) (hc2 : c ≠ 101) (hc3 : c ≠ 69) :
    parseScalar (appendInt i ++ c :: tail) = some (JValue.number (appendInt i), c :: tail) := by
  have hs := scanNumber_appendInt i c tail hc hc1 hc2 hc3
  obtain ⟨sign, d, ds, h1, h2, h3, h4, h5, _⟩ := appendInt_spec i
  have hhead : ∃ x xs, appendInt i ++ c :: tail = x :: xs ∧ (x = 45 ∨ isDigit x = true) := by
    rcases h2 with ⟨rfl, _⟩ | ⟨rfl, _⟩
    · exact ⟨d, ds ++ c :: tail, by rw [h1]; rfl, Or.inr h3⟩
    · exact ⟨45, d :: ds ++ c :: tail, by rw [h1]; rfl, Or.inl rfl⟩
  obtain ⟨x, xs, hx, hx2⟩ := hhead
  rw [parseScalar.eq_def]
  have hx3 : 45 ≤ x ∧ x ≤ 57 := by
    rcases hx2 with rfl | h
    · omega
    · simp [isDigit] at h; omega
  split
  · rename_i heq; rw [hx] at heq; simp at heq; omega
  · rename_i heq; rw [hx] at heq; simp at heq; omega
  · rename_i heq; rw [hx] at heq; simp at heq; omega
  · rename_i heq; rw [hx] at heq; simp at heq; omega
  · rw [hs]; rfl

theorem parseUint_digits (d : Nat) (ds : GoString) (hd : isDigit d = true)
    (hds : ds.all isDigit = true) :
    parseUint (d :: ds) = some ((d :: ds).foldl (fun a c => a * 10 + (c - 48)) 0) := by
  unfold parseUint
  rw [if_neg (by simp), if_pos (by simp only [List.all_cons, hd, hds]; rfl)]

theorem parseInt_appendInt (p : GoInt) : parseInt (appendInt p.val) = some p := by
  obtain ⟨sign, d, ds, h1, h2, h3, h4, h5, h6⟩ := appendInt_spec p.val
  have hpu := parseUint_digits d ds h3 h4
  rw [h6] at hpu
  have hd : 48 ≤ d ∧ d ≤ 57 := by simpa [isDigit] using h3
  obtain ⟨v, hv⟩ := p
  dsimp only at h1 h2 hpu ⊢
  rw [h1]
  rcases h2 with ⟨rfl, hpos⟩ | ⟨rfl, hneg⟩
  · have c1 : ¬ (d = 43 ∨ d = 45) := by omega
    have c2 : ¬ d = 45 := by omega
    have habs : (v.natAbs : Int) = v := Int.natAbs_of_nonneg hpos
    have hlt : v.natAbs < 9223372036854775808 := by omega
    rw [List.nil_append, parseInt, if_neg c1]
    simp only [hpu]
    rw [if_neg c2, dif_pos hlt]
    congr 1
    exact Subtype.ext habs
  · have habs : (v.natAbs : Int) = -v := Int.ofNat_natAbs_of_nonpos (by omega)
    have hle : v.natAbs ≤ 9223372036854775808 := by omega
    have c1 : (45 : Nat) = 43 ∨ (45 : Nat) = 45 := Or.inr rfl
    rw [List.cons_append, List.nil_append, parseInt, if_pos c1]
    simp only [hpu]
    rw [if_pos trivial, dif_pos hle]
    congr 1
    exact Subtype.ext (by simp only; omega)

/-! ## The encoding of a record, parsed and decoded -/

theorem skipWS_cons (c : Nat) (t : GoString) (h : isSpace c = false) :
    skipWS (c :: t) = c :: t := by
  simp [skipWS, h]

theorem appendString_head (s tail : GoString) :
    ∃ t, appendString s ++ tail = 34 :: t := ⟨_, appendString_append s tail⟩

theorem parseValue_appendString (d : Nat) (s tail : GoString) :
    parseValue d (appendString s ++ tail) = some (JValue.string (coerceUTF8 s), tail) := by
  have hp := parseScalar_appendString s tail
  rw [appendString_append] at hp ⊢
  cases d with
  | zero => rw [parseValue, skipWS_cons _ _ (by decide), hp]
  | succ d => rw [parseValue, skipWS_cons _ _ (by decide)]; simpa using hp

theorem appendInt_head (i : Int) (tail : GoString) :
    ∃ x xs, appendInt i ++ tail = x :: xs ∧ 45 ≤ x ∧ x ≤ 57 := by
  obtain ⟨sign, d, ds, h1, h2, h3, _⟩ := appendInt_spec i
  have hd : 48 ≤ d ∧ d ≤ 57 := by simpa [isDigit] using h3
  rcases h2 with ⟨rfl, _⟩ | ⟨rfl, _⟩
  · exact ⟨d, ds ++ tail, by rw [h1]; rfl, by omega, by omega⟩
  · exact ⟨45, d :: ds ++ tail, by rw [h1]; rfl, by omega, by omega⟩

theorem parseValue_appendInt (d : Nat) (i : Int) (c : Nat) (tail : GoString)
    (hc : isDigit c = false) (hc1 : c ≠ 46) (hc2 : c ≠ 101) (hc3 : c ≠ 69) :
    parseValue d (appendInt i ++ c :: tail) = some (JValue.number (appendInt i), c :: tail) := by
  have hp := parseScalar_appendInt i c tail hc hc1 hc2 hc3
  obtain ⟨x, xs, hx, h1, h2⟩ := appendInt_head i (c :: tail)
  rw [hx] at hp ⊢
  have hsp : isSpace x = false := by simp [isSpace]; omega
  cases d with
  | zero => rw [parseValue, skipWS_cons _ _ hsp, hp]
  | succ d =>
    rw [parseValue, skipWS_cons _ _ hsp]
    split
    · rename_i heq; simp at heq; omega
    · rename_i heq; simp at heq; omega
    · exact hp

theorem parseMembers_comma (pv : GoString → Option (JValue × GoString)) (fuel : Nat)
    (s vb rest : GoString) (v : JValue) (hv : pv (vb ++ 44 :: rest) = some (v, 44 :: rest)) :
    parseMembers pv (fuel + 1) (appendString s ++ 58 :: (vb ++ 44 :: rest))
      = (parseMembers pv fuel rest).map (fun p => ((coerceUTF8 s, v) :: p.1, p.2)) := by
  rw [parseMembers, appendString_append, skipWS_cons _ _ (by decide)]
  simp only [scanString_appendStringLoop, unquoteBytes_appendStringLoop]
  rw [skipWS_cons _ _ (by decide)]
  simp only [hv]
  rw [skipWS_cons _ _ (by decide)]
  rfl

theorem parseMembers_brace (pv : GoString → Option (JValue × GoString)) (fuel : Nat)
    (s vb rest : GoString) (v : JValue) (hv : pv (vb ++ 125 :: rest) = some (v, 125 :: rest)) :
    parseMembers pv (fuel + 1) (appendString s ++ 58 :: (vb ++ 125 :: rest))
      = some ([(coerceUTF8 s, v)], rest) := by
  rw [parseMembers, appendString_append, skipWS_cons _ _ (by decide)]
  simp only [scanString_appendStringLoop, unquoteBytes_appendStringLoop]
  rw [skipWS_cons _ _ (by decide)]
  simp only [hv]
  rw [skipWS_cons _ _ (by decide)]
  rfl


theorem encodeLog_shape (a : Log) :
    encodeLog a = 123 :: (appendString (lit "ID") ++ 58 :: (appendString a.ID ++ 44 ::
      (appendString (lit "timestamp") ++ 58 :: (appendString a.Timestamp ++ 44 ::
      (appendString (lit "server") ++ 58 :: (appendString a.Server ++ 44 ::
      (appendString (lit "user") ++ 58 :: (appendString a.User ++ 44 ::
      (appendString (lit "event") ++ 58 :: (appendString a.Event ++ 44 ::
      (appendString (lit "port") ++ 58 :: (appendInt a.Port.val ++ 44 ::
      (appendString (lit "ipAddress") ++ 58 :: (appendString a.IPAddress ++ 125 :: []
      )))))))))))))) := by
  have h1 : lit "\x7b\"ID\":" = 123 :: (appendString (lit "ID") ++ [58]) := by decide
  have h2 : lit ",\"timestamp\":" = 44 :: (appendString (lit "timestamp") ++ [58]) := by decide
  have h3 : lit ",\"server\":" = 44 :: (appendString (lit "server") ++ [58]) := by decide
  have h4 : lit ",\"user\":" = 44 :: (appendString (lit "user") ++ [58]) := by decide
  have h5 : lit ",\"event\":" = 44 :: (appendString (lit "event") ++ [58]) := by decide
  have h6 : lit ",\"port\":" = 44 :: (appendString (lit "port") ++ [58]) := by decide
  have h7 : lit ",\"ipAddress\":" = 44 :: (appendString (lit "ipAddress") ++ [58]) := by decide
  have h8 : lit "\x7d" = [125] := by decide
  unfold encodeLog
  rw [h1, h2, h3, h4, h5, h6, h7, h8]
  simp only [List.append_assoc, List.cons_append, List.nil_append, List.singleton_append]

theorem parseMembers_encodeLog (a : Log) (k : Nat) :
    parseMembers (parseValue 9999) (k + 7) (encodeLog a).tail = some (memberList a, []) := by
  rw [encodeLog_shape, List.tail_cons,
    parseMembers_comma _ _ _ _ _ _ (parseValue_appendString _ _ _),
    parseMembers_comma _ _ _ _ _ _ (parseValue_appendString _ _ _),
    parseMembers_comma _ _ _ _ _ _ (parseValue_appendString _ _ _),
    parseMembers_comma _ _ _ _ _ _ (parseValue_appendString _ _ _),
    parseMembers_comma _ _ _ _ _ _ (parseValue_appendString _ _ _),
    parseMembers_comma _ _ _ _ _ _
      (parseValue_appendInt _ _ _ _ (by decide) (by decide) (by decide) (by decide)),
    parseMembers_brace _ _ _ _ _ _ (parseValue_appendString _ _ _)]
  have hk : ∀ s : String, coerceUTF8 (lit s) = coerceLoop (lit s).length (lit s) := fun _ => rfl
  have e1 : coerceUTF8 (lit "ID") = lit "ID" := by decide
  have e2 : coerceUTF8 (lit "timestamp") = lit "timestamp" := by decide
  have e3 : coerceUTF8 (lit "server") = lit "server" := by decide
  have e4 : coerceUTF8 (lit "user") = lit "user" := by decide
  have e5 : coerceUTF8 (lit "event") = lit "event" := by decide
  have e6 : coerceUTF8 (lit "port") = lit "port" := by decide
  have e7 : coerceUTF8 (lit "ipAddress") = lit "ipAddress" := by decide
  rw [e1, e2, e3, e4, e5, e6, e7]
  rfl

theorem parseValue_encodeLog (a : Log) :
    parseValue maxNestingDepth (encodeLog a) = some (JValue.object (memberList a), []) := by
  have hs := encodeLog_shape a
  have h0 : encodeLog a = 123 :: (encodeLog a).tail := by rw [hs]; rfl
  obtain ⟨t, ht⟩ : ∃ t, (encodeLog a).tail = 34 :: t := by
    rw [hs, List.tail_cons]; exact ⟨_, appendString_append _ _⟩
  obtain ⟨k, hk⟩ : ∃ k, (encodeLog a).tail.length = k + 7 := by
    refine ⟨(encodeLog a).tail.length - 7, ?_⟩
    have : 7 ≤ (encodeLog a).tail.length := by
      rw [hs, List.tail_cons]
      simp only [List.length_append, List.length_cons, appendString]
      omega
    omega
  have hm := parseMembers_encodeLog a k
  rw [h0, show maxNestingDepth = 9999 + 1 from rfl, parseValue, skipWS_cons _ _ (by decide)]
  simp only []
  rw [hk, hm, ht, skipWS_cons _ _ (by decide)]
  rfl

theorem parseJSON_encodeLog (a : Log) :
    parseJSON (encodeLog a) = some (JValue.object (memberList a)) := by
  simp [parseJSON, parseValue_encodeLog, skipWS]


theorem findField_names :
    findField (lit "ID") = some .ID ∧ findField (lit "timestamp") = some .Timestamp ∧
    findField (lit "server") = some .Server ∧ findField (lit "user") = some .User ∧
    findField (lit "event") = some .Event ∧ findField (lit "port") = some .Port ∧
    findField (lit "ipAddress") = some .IPAddress := by
  decide

theorem decodeMembers_memberList (a : Log) :
    decodeMembers (memberList a) zeroLog = .ok (coerceLog a) := by
  obtain ⟨f1, f2, f3, f4, f5, f6, f7⟩ := findField_names
  simp only [memberList, decodeMembers, f1, f2, f3, f4, f5, f6, f7, storeField, setString,
    parseInt_appendInt, zeroLog, coerceLog]

/-- Unmarshal after Marshal gives the record with its strings coerced to valid UTF-8. -/
theorem jsonUnmarshal_encodeLog (a : Log) :
    jsonUnmarshal (encodeLog a) = .ok (coerceLog a) := by
  simp only [jsonUnmarshal, parseJSON_encodeLog, decodeMembers_memberList]

theorem coerceUTF8_of_valid (s : GoString) (h : validUTF8 s = true) : coerceUTF8 s = s :=
  coerceLoop_of_valid _ _ h

theorem coerceLog_of_valid (a : Log) (h : a.validStrings = true) : coerceLog a = a := by
  simp only [Log.validStrings, Bool.and_eq_true] at h
  obtain ⟨⟨⟨⟨⟨h1, h2⟩, h3⟩, h4⟩, h5⟩, h6⟩ := h
  simp only [coerceLog, coerceUTF8_of_valid _ h1, coerceUTF8_of_valid _ h2,
    coerceUTF8_of_valid _ h3, coerceUTF8_of_valid _ h4, coerceUTF8_of_valid _ h5,
    coerceUTF8_of_valid _ h6]

/-! ## Bounds of the loops of the parser -/

theorem skipWS_length : ∀ x : GoString, (skipWS x).length ≤ x.length := by
  intro x
  induction x with
  | nil => simp [skipWS]
  | cons c rest ih =>
    rw [skipWS]
    split_ifs
    · simp only [List.length_cons]; omega
    · exact Nat.le_refl _

theorem scanString_length (n : Nat) : ∀ (x raw r : GoString), x.length ≤ n →
    scanString x = some (raw, r) → r.length < x.length := by
  induction n with
  | zero =>
    intro x raw r hn h
    obtain rfl : x = [] := List.length_eq_zero.1 (by omega)
    simp [scanString] at h
  | succ n ih =>
    intro x raw r hn h
    rw [scanString.eq_def] at h
    rcases x with _ | ⟨c, rest⟩
    · simp at h
    simp only [List.length_cons] at hn ⊢
    simp only [] at h
    split_ifs at h with h1 h2 h3
    · simp only [Option.some.injEq, Prod.mk.injEq] at h
      obtain ⟨_, rfl⟩ := h
      omega
    · rcases rest with _ | ⟨e, rest1⟩
      · simp at h
      simp only [List.length_cons] at hn ⊢
      simp only [] at h
      split_ifs at h with h4 h5
      · obtain ⟨p, hp, hp2⟩ := Option.map_eq_some'.1 h
        simp only [Prod.mk.injEq] at hp2
        have := ih rest1 p.1 p.2 (by omega) hp
        rw [← hp2.2]; omega
      · rcases rest1 with _ | ⟨a1, _ | ⟨a2, _ | ⟨a3, _ | ⟨a4, rest2⟩⟩⟩⟩
        all_goals first
          | (simp at h; done)
          | skip
        simp only [] at h
        split_ifs at h
        obtain ⟨p, hp, hp2⟩ := Option.map_eq_some'.1 h
        simp only [Prod.mk.injEq] at hp2
        simp only [List.length_cons] at hn ⊢
        have := ih rest2 p.1 p.2 (by omega) hp
        rw [← hp2.2]; omega
    · obtain ⟨p, hp, hp2⟩ := Option.map_eq_some'.1 h
      simp only [Prod.mk.injEq] at hp2
      have := ih rest p.1 p.2 (by omega) hp
      rw [← hp2.2]; omega


theorem dropWhile_length (p : Nat → Bool) (x : GoString) : (x.dropWhile p).length ≤ x.length := by
  induction x with
  | nil => simp
  | cons c rest ih =>
    rw [List.dropWhile_cons]
    split_ifs
    · simp only [List.length_cons]; omega
    · exact Nat.le_refl _

theorem scanFrac_length (x fr r : GoString) (h : scanFrac x = some (fr, r)) :
    r.length ≤ x.length := by
  rw [scanFrac.eq_def] at h
  split at h
  · split_ifs at h
    simp only [Option.some.injEq, Prod.mk.injEq] at h
    obtain ⟨_, rfl⟩ := h
    have := dropWhile_length isDigit ‹GoString›
    simp only [List.length_cons]; omega
  · simp at h
  · simp only [Option.some.injEq, Prod.mk.injEq] at h
    obtain ⟨_, rfl⟩ := h
    exact Nat.le_refl _

theorem scanExpDigits_length (pre x ex r : GoString) (h : scanExpDigits pre x = some (ex, r)) :
    r.length ≤ x.length := by
  rw [scanExpDigits.eq_def] at h
  split at h
  · split_ifs at h
    simp only [Option.some.injEq, Prod.mk.injEq] at h
    obtain ⟨_, rfl⟩ := h
    have := dropWhile_length isDigit ‹GoString›
    simp only [List.length_cons]; omega
  · simp at h

theorem scanExp_length (x ex r : GoString) (h : scanExp x = some (ex, r)) :
    r.length ≤ x.length := by
  rw [scanExp.eq_def] at h
  split at h
  · simp only [Option.some.injEq, Prod.mk.injEq] at h
    obtain ⟨_, rfl⟩ := h
    exact Nat.le_refl _
  · split_ifs at h
    · split at h
      · simp at h
      · split_ifs at h
        · have := scanExpDigits_length _ _ _ _ h
          simp only [List.length_cons]; omega
        · have := scanExpDigits_length _ _ _ _ h
          simp only [List.length_cons] at this ⊢; omega
    · simp only [Option.some.injEq, Prod.mk.injEq] at h
      obtain ⟨_, rfl⟩ := h
      exact Nat.le_refl _

theorem scanUnsigned_length (x raw r : GoString) (h : scanUnsigned x = some (raw, r)) :
    r.length < x.length := by
  rw [scanUnsigned.eq_def] at h
  split at h
  · simp at h
  · rename_i d rest
    have h3 := dropWhile_length isDigit rest
    split_ifs at h with hd hz
    all_goals
      simp only [] at h
      split at h
      · simp at h
      · rename_i fr r2 hfr
        split at h
        · simp at h
        · rename_i ex r3 hex
          simp only [Option.some.injEq, Prod.mk.injEq] at h
          obtain ⟨_, rfl⟩ := h
          have h1 := scanFrac_length _ _ _ hfr
          have h2 := scanExp_length _ _ _ hex
          simp only [List.length_cons]
          omega

theorem scanNumber_length (x raw r : GoString) (h : scanNumber x = some (raw, r)) :
    r.length < x.length := by
  rw [scanNumber.eq_def] at h
  split at h
  · obtain ⟨p, hp, hp2⟩ := Option.map_eq_some'.1 h
    simp only [Prod.mk.injEq] at hp2
    have := scanUnsigned_length _ _ _ hp
    rw [← hp2.2]; simp only [List.length_cons]; omega
  · exact scanUnsigned_length _ _ _ h

theorem parseScalar_length (x : GoString) (v : JValue) (r : GoString)
    (h : parseScalar x = some (v, r)) : r.length < x.length := by
  rw [parseScalar.eq_def] at h
  split at h
  · split at h
    · simp at h
    · rename_i raw r1 hs
      obtain ⟨s, _, hs2⟩ := Option.map_eq_some'.1 h
      simp only [Prod.mk.injEq] at hs2
      have := scanString_length _ _ _ _ (Nat.le_refl _) hs
      rw [← hs2.2]; simp only [List.length_cons]; omega
  · simp only [Option.some.injEq, Prod.mk.injEq] at h
    obtain ⟨_, rfl⟩ := h
    simp only [List.length_cons]; omega
  · simp only [Option.some.injEq, Prod.mk.injEq] at h
    obtain ⟨_, rfl⟩ := h
    simp only [List.length_cons]; omega
  · simp only [Option.some.injEq, Prod.mk.injEq] at h
    obtain ⟨_, rfl⟩ := h
    simp only [List.length_cons]; omega
  · obtain ⟨p, hp, hp2⟩ := Option.map_eq_some'.1 h
    simp only [Prod.mk.injEq] at hp2
    have := scanNumber_length _ _ _ hp
    rw [← hp2.2]; exact this


theorem parseElems_length (pv : GoString → Option (JValue × GoString))
    (hpv : ∀ x v r, pv x = some (v, r) → r.length < x.length) (f : Nat) :
    ∀ (inp : GoString) (vs : List JValue) (r : GoString),
      parseElems pv f inp = some (vs, r) → r.length < inp.length := by
  induction f with
  | zero => intro inp vs r h; simp [parseElems] at h
  | succ f ih =>
    intro inp vs r h
    rw [parseElems] at h
    split at h
    · simp at h
    · rename_i v r0 hv
      have h0 := hpv _ _ _ hv
      have hw := skipWS_length r0
      split at h
      · rename_i r1 hs
        obtain ⟨p, hp, hp2⟩ := Option.map_eq_some'.1 h
        simp only [Prod.mk.injEq] at hp2
        have := ih _ _ _ hp
        rw [hs] at hw; simp only [List.length_cons] at hw
        rw [← hp2.2]; omega
      · rename_i r1 hs
        simp only [Option.some.injEq, Prod.mk.injEq] at h
        obtain ⟨_, rfl⟩ := h
        rw [hs] at hw; simp only [List.length_cons] at hw
        omega
      · simp at h

theorem parseMembers_length (pv : GoString → Option (JValue × GoString))
    (hpv : ∀ x v r, pv x = some (v, r) → r.length < x.length) (f : Nat) :
    ∀ (inp : GoString) (ms : List (GoString × JValue)) (r : GoString),
      parseMembers pv f inp = some (ms, r) → r.length < inp.length := by
  induction f with
  | zero => intro inp ms r h; simp [parseMembers] at h
  | succ f ih =>
    intro inp ms r h
    rw [parseMembers] at h
    have hw0 := skipWS_length inp
    split at h
    · rename_i r0 hs0
      rw [hs0] at hw0; simp only [List.length_cons] at hw0
      split at h
      · simp at h
      · rename_i raw r1 hsc
        have h1 := scanString_length _ _ _ _ (Nat.le_refl _) hsc
        split at h
        · simp at h
        · rename_i key hk
          have hw1 := skipWS_length r1
          split at h
          · rename_i r2 hs2
            rw [hs2] at hw1; simp only [List.length_cons] at hw1
            split at h
            · simp at h
            · rename_i v r3 hv
              have h3 := hpv _ _ _ hv
              have hw3 := skipWS_length r3
              split at h
              · rename_i r4 hs4
                obtain ⟨p, hp, hp2⟩ := Option.map_eq_some'.1 h
                simp only [Prod.mk.injEq] at hp2
                have := ih _ _ _ hp
                rw [hs4] at hw3; simp only [List.length_cons] at hw3
                rw [← hp2.2]; omega
              · rename_i r4 hs4
                simp only [Option.some.injEq, Prod.mk.injEq] at h
                obtain ⟨_, rfl⟩ := h
                rw [hs4] at hw3; simp only [List.length_cons] at hw3
                omega
              · simp at h
          · simp at h
    · simp at h

theorem parseValue_length (d : Nat) : ∀ (x : GoString) (v : JValue) (r : GoString),
    parseValue d x = some (v, r) → r.length < x.length := by
  induction d with
  | zero =>
    intro x v r h
    rw [parseValue] at h
    have := parseScalar_length _ _ _ h
    have := skipWS_length x
    omega
  | succ d ih =>
    intro x v r h
    rw [parseValue] at h
    have hw := skipWS_length x
    split at h
    · rename_i rest hs
      rw [hs] at hw; simp only [List.length_cons] at hw
      have hw1 := skipWS_length rest
      split at h
      · rename_i r1 hs1
        simp only [Option.some.injEq, Prod.mk.injEq] at h
        obtain ⟨_, rfl⟩ := h
        rw [hs1] at hw1; simp only [List.length_cons] at hw1
        omega
      · obtain ⟨p, hp, hp2⟩ := Option.map_eq_some'.1 h
        simp only [Prod.mk.injEq] at hp2
        have := parseMembers_length _ ih _ _ _ _ hp
        rw [← hp2.2]; omega
    · rename_i rest hs
      rw [hs] at hw; simp only [List.length_cons] at hw
      have hw1 := skipWS_length rest
      split at h
      · rename_i r1 hs1
        simp only [Option.some.injEq, Prod.mk.injEq] at h
        obtain ⟨_, rfl⟩ := h
        rw [hs1] at hw1; simp only [List.length_cons] at hw1
        omega
      · obtain ⟨p, hp, hp2⟩ := Option.map_eq_some'.1 h
        simp only [Prod.mk.injEq] at hp2
        have := parseElems_length _ ih _ _ _ _ hp
        rw [← hp2.2]; omega
    · have := parseScalar_length _ _ _ h
      omega


theorem pv_nil (pv : GoString → Option (JValue × GoString))
    (hpv : ∀ x v r, pv x = some (v, r) → r.length < x.length) : pv [] = none := by
  cases h : pv [] with
  | none => rfl
  | some p => have := hpv [] p.1 p.2 h; simp at this

theorem parseElems_fuel (pv : GoString → Option (JValue × GoString))
    (hpv : ∀ x v r, pv x = some (v, r) → r.length < x.length) (f1 : Nat) :
    ∀ (f2 : Nat) (inp : GoString), inp.length ≤ f1 → inp.length ≤ f2 →
      parseElems pv f1 inp = parseElems pv f2 inp := by
  induction f1 with
  | zero =>
    intro f2 inp h1 _
    obtain rfl : inp = [] := List.length_eq_zero.1 (by omega)
    cases f2 with
    | zero => rfl
    | succ f2 => simp [parseElems, pv_nil pv hpv]
  | succ f1 ih =>
    intro f2 inp h1 h2
    cases f2 with
    | zero =>
      obtain rfl : inp = [] := List.length_eq_zero.1 (by omega)
      simp [parseElems, pv_nil pv hpv]
    | succ f2 =>
      rw [parseElems, parseElems]
      cases hv : pv inp with
      | none => rfl
      | some p =>
        obtain ⟨v, r⟩ := p
        have h0 := hpv _ _ _ hv
        have hw := skipWS_length r
        simp only []
        split
        · rename_i r1 hs
          rw [hs] at hw; simp only [List.length_cons] at hw
          rw [ih f2 r1 (by omega) (by omega)]
        · rfl
        · rfl

theorem parseMembers_fuel (pv : GoString → Option (JValue × GoString))
    (hpv : ∀ x v r, pv x = some (v, r) → r.length < x.length) (f1 : Nat) :
    ∀ (f2 : Nat) (inp : GoString), inp.length ≤ f1 → inp.length ≤ f2 →
      parseMembers pv f1 inp = parseMembers pv f2 inp := by
  induction f1 with
  | zero =>
    intro f2 inp h1 _
    obtain rfl : inp = [] := List.length_eq_zero.1 (by omega)
    cases f2 with
    | zero => rfl
    | succ f2 => simp [parseMembers, skipWS]
  | succ f1 ih =>
    intro f2 inp h1 h2
    cases f2 with
    | zero =>
      obtain rfl : inp = [] := List.length_eq_zero.1 (by omega)
      simp [parseMembers, skipWS]
    | succ f2 =>
      rw [parseMembers, parseMembers]
      have hw0 := skipWS_length inp
      split
      · rename_i r0 hs0
        rw [hs0] at hw0; simp only [List.length_cons] at hw0
        split
        · rfl
        · rename_i raw r1 hsc
          have h1' := scanString_length _ _ _ _ (Nat.le_refl _) hsc
          split
          · rfl
          · have hw1 := skipWS_length r1
            split
            · rename_i r2 hs2
              rw [hs2] at hw1; simp only [List.length_cons] at hw1
              split
              · rfl
              · rename_i v r3 hv
                have h3 := hpv _ _ _ hv
                have hw3 := skipWS_length r3
                split
                · rename_i r4 hs4
                  rw [hs4] at hw3; simp only [List.length_cons] at hw3
                  rw [ih f2 r4 (by omega) (by omega)]
                · rfl
                · rfl
            · rfl
      · rfl

/-- The bound `parseValue` gives the loop over the members of an object (the
length of the input) is never the reason for a failure: any larger bound
gives the same result. -/
theorem parseMembers_bound (d f : Nat) (inp : GoString) (h : inp.length ≤ f) :
    parseMembers (parseValue d) f inp = parseMembers (parseValue d) inp.length inp :=
  parseMembers_fuel _ (parseValue_length d) f inp.length inp h (Nat.le_refl _)

/-- The bound `parseValue` gives the loop over the elements of an array (the
length of the input) is never the reason for a failure: any larger bound
gives the same result. -/
theorem parseElems_bound (d f : Nat) (inp : GoString) (h : inp.length ≤ f) :
    parseElems (parseValue d) f inp = parseElems (parseValue d) inp.length inp :=
  parseElems_fuel _ (parseValue_length d) f inp.length inp h (Nat.le_refl _)

/-! ## Conformance of the codec on examples -/

/-- Conformance: the bytes `json.Marshal` writes for the first seed record. -/
theorem encodeLog_log1 :
    (seedAssets.map encodeLog).head? = some (lit "\x7b\"ID\":\"log1\",\"timestamp\":\"2020-06-25 01:53:37\",\"server\":\"mailsv1\",\"user\":\"guest\",\"event\":\"access denied\",\"port\":20,\"ipAddress\":\"168.156.11.24\"\x7d") := by
  decide

/-- Conformance: escapes of `appendString`: quote, backslash, the short
escapes, the other control bytes, the HTML bytes, a rune kept as written,
U+2028, and bytes that are no UTF-8. -/
theorem appendString_escapes :
    appendString [34, 92, 8, 12, 10, 13, 9, 1, 60, 62, 38, 127, 0xC3, 0xA9, 0xE2, 0x80, 0xA8,
        0xFF, 0xC3]
      = lit "\"\\\"\\\\\\b\\f\\n\\r\\t\\u0001\\u003c\\u003e\\u0026" ++ [127, 0xC3, 0xA9]
          ++ lit "\\u2028\\ufffd\\ufffd\"" := by
  decide

/-- Conformance: `strconv.AppendInt` at the ends of the range and at zero. -/
theorem appendInt_examples :
    appendInt (-9223372036854775808) = lit "-9223372036854775808" ∧
    appendInt 9223372036854775807 = lit "9223372036854775807" ∧
    appendInt 0 = lit "0" ∧ appendInt (-7) = lit "-7" := by
  decide

/-- Conformance: `json.Unmarshal` accepts white space, any order of keys, keys
in another case, unknown keys with nested values, `null` for a field, escapes
and surrogate pairs; the last value of a repeated key stays. -/
theorem jsonUnmarshal_accepts :
    jsonUnmarshal (lit " \x7b \"port\" : 8080 ,\n \"id\":\"a\\u00e9\\ud83d\\ude00\\n\", \"extra\": [1, \x7b\"k\": [true, null, -0.5e+3]\x7d], \"USER\": \"u1\", \"user\": \"u2\", \"server\": null \x7d ")
      = .ok { ID := [97, 0xC3, 0xA9, 0xF0, 0x9F, 0x98, 0x80, 10], Timestamp := [], Server := [],
              User := lit "u2", Event := [], Port := ⟨8080, by decide⟩, IPAddress := [] } ∧
    jsonUnmarshal (lit "null") = .ok zeroLog ∧
    jsonUnmarshal (lit "\x7b\x7d") = .ok zeroLog ∧
    jsonUnmarshal (lit "\x7b\"port\":-9223372036854775808\x7d")
      = .ok { zeroLog with Port := ⟨-9223372036854775808, by decide⟩ } := by
  decide

/-- Conformance: the errors of `json.Unmarshal`: input that is no JSON value,
a value of the wrong type for a field, a number outside the range of `int`,
and a top-level value that is no object. -/
theorem jsonUnmarshal_rejects :
    jsonUnmarshal (lit "not json") = .error .syntaxError ∧
    jsonUnmarshal (lit "\x7b\"ID\":\"a\"") = .error .syntaxError ∧
    jsonUnmarshal (lit "\x7b\"ID\":\"a\",\x7d") = .error .syntaxError ∧
    jsonUnmarshal (lit "\x7b\"ID\":\"a\"\x7d x") = .error .syntaxError ∧
    jsonUnmarshal (lit "\x7b\"port\":01\x7d") = .error .syntaxError ∧
    jsonUnmarshal (lit "\x7b\"ID\":\"\\x\"\x7d") = .error .syntaxError ∧
    jsonUnmarshal (lit "\x7b\"port\":\"20\"\x7d")
      = .error (.unmarshalTypeError (lit "string") (lit "port")) ∧
    jsonUnmarshal (lit "\x7b\"port\":2.5\x7d")
      = .error (.unmarshalTypeError (lit "number 2.5") (lit "port")) ∧
    jsonUnmarshal (lit "\x7b\"port\":9223372036854775808\x7d")
      = .error (.unmarshalTypeError (lit "number 9223372036854775808") (lit "port")) ∧
    jsonUnmarshal (lit "\x7b\"ID\":7\x7d")
      = .error (.unmarshalTypeError (lit "number") (lit "ID")) ∧
    jsonUnmarshal (lit "[]") = .error (.unmarshalTypeError (lit "array") []) ∧
    jsonUnmarshal (lit "\"log1\"") = .error (.unmarshalTypeError (lit "string") []) := by
  decide

/-! ## The world state and the point operations -/

theorem lookupEntry_insertEntry (key value : GoString) (l : List (GoString × GoString)) :
    lookupEntry key (insertEntry key value l) = some value := by
  induction l with
  | nil => simp [insertEntry, lookupEntry]
  | cons kv l ih =>
    obtain ⟨k, v⟩ := kv
    rw [insertEntry]
    split_ifs with h1 h2
    · simp [lookupEntry]
    · simp [lookupEntry]
    · simp [lookupEntry, h2, ih]

theorem mem_insertEntry (key value : GoString) (l : List (GoString × GoString))
    (kv : GoString × GoString) (h : kv ∈ insertEntry key value l) :
    kv = (key, value) ∨ kv ∈ l := by
  induction l with
  | nil => simpa [insertEntry] using h
  | cons e l ih =>
    obtain ⟨k, v⟩ := e
    rw [insertEntry] at h
    split_ifs at h with h1 h2
    · simpa using h
    · simp only [List.mem_cons] at h ⊢
      rcases h with h | h
      · exact Or.inl h
      · exact Or.inr (Or.inr h)
    · simp only [List.mem_cons] at h ⊢
      rcases h with h | h
      · exact Or.inr (Or.inl h)
      · rcases ih h with h | h
        · exact Or.inl h
        · exact Or.inr (Or.inr h)

/-- What a successful `CreateAsset` leaves behind. -/
theorem createAsset_ok (ctx : Stub) (id timestamp server user event : GoString) (port : GoInt)
    (ipAddress : GoString)
    (h : (CreateAsset ctx id timestamp server user event port ipAddress).1 = none) :
    ctx.getErr id = none ∧ lookupEntry id ctx.world = none ∧
    (CreateAsset ctx id timestamp server user event port ipAddress).2 =
      { ctx with
        world := insertEntry id
          (encodeLog (Log.mk id timestamp server user event port ipAddress)) ctx.world } := by
  unfold CreateAsset AssetExists Stub.GetState at *
  cases hg : ctx.getErr id with
  | some e => simp [hg] at h
  | none =>
    simp only [hg] at h ⊢
    cases hl : lookupEntry id ctx.world with
    | some v => simp [hl] at h
    | none =>
      simp only [hl, Option.isSome_none, Bool.false_eq_true, if_false, jsonMarshal,
        Stub.PutState] at h ⊢
      cases hp : ctx.putErr id
          (encodeLog (Log.mk id timestamp server user event port ipAddress)) with
      | some e => simp [hp] at h
      | none => simp


/-- C1 (as amended). When every string argument is valid UTF-8 and
`CreateAsset(id, ...)` returns no error, `ReadAsset(id)`, called with any
handle on the resulting store whose `get` answers for `id`, returns no error
and the record built from the arguments of `CreateAsset`, field for field. -/
theorem createAsset_then_readAsset (ctx : Stub) (id timestamp server user event : GoString)
    (port : GoInt) (ipAddress : GoString) (ctx2 : Stub)
    (hvalid : (Log.mk id timestamp server user event port ipAddress).validStrings = true)
    (h : (CreateAsset ctx id timestamp server user event port ipAddress).1 = none)
    (hworld : ctx2.world
      = (CreateAsset ctx id timestamp server user event port ipAddress).2.world)
    (hget : ctx2.getErr id = none) :
    ReadAsset ctx2 id = (.ok (Log.mk id timestamp server user event port ipAddress), ctx2) := by
  obtain ⟨_, _, hctx⟩ := createAsset_ok ctx id timestamp server user event port ipAddress h
  rw [hctx] at hworld
  simp only [ReadAsset, Stub.GetState, hget, hworld, lookupEntry_insertEntry,
    jsonUnmarshal_encodeLog, coerceLog_of_valid _ hvalid]

/-- Witness of C1 (as amended): a seventh record created after `InitLedger`,
read back through a handle of a later transaction whose `get` answers (and
whose range cursor is down). -/
theorem createAsset_then_readAsset_witness :
    (Log.mk (lit "log7") (lit "2024-05-07 11:00:00") (lit "websv2") [0xC3, 0xA9, 34, 60]
        (lit "access denied") ⟨443, by decide⟩ (lit "168.156.11.24")).validStrings = true ∧
    (CreateAsset (InitLedger emptyStub).2 (lit "log7") (lit "2024-05-07 11:00:00") (lit "websv2")
        [0xC3, 0xA9, 34, 60] (lit "access denied") ⟨443, by decide⟩ (lit "168.156.11.24")).1
      = none ∧
    ReadAsset ((CreateAsset (InitLedger emptyStub).2 (lit "log7") (lit "2024-05-07 11:00:00")
        (lit "websv2") [0xC3, 0xA9, 34, 60] (lit "access denied") ⟨443, by decide⟩
        (lit "168.156.11.24")).2.following rangeDownStub) (lit "log7")
      = (.ok (Log.mk (lit "log7") (lit "2024-05-07 11:00:00") (lit "websv2") [0xC3, 0xA9, 34, 60]
          (lit "access denied") ⟨443, by decide⟩ (lit "168.156.11.24")),
         (CreateAsset (InitLedger emptyStub).2 (lit "log7") (lit "2024-05-07 11:00:00")
          (lit "websv2") [0xC3, 0xA9, 34, 60] (lit "access denied") ⟨443, by decide⟩
          (lit "168.156.11.24")).2.following rangeDownStub) :=
  ⟨by decide, by decide,
    createAsset_then_readAsset (InitLedger emptyStub).2 (lit "log7") (lit "2024-05-07 11:00:00")
      (lit "websv2") [0xC3, 0xA9, 34, 60] (lit "access denied") ⟨443, by decide⟩
      (lit "168.156.11.24") _ (by decide) (by decide) rfl rfl⟩

/-- Counterexample to C1 as stated, in two parts. With the user `"\xff"` (one
byte, not valid UTF-8) `CreateAsset` returns no error, and `ReadAsset` of the
same id returns a record whose user is the three bytes of U+FFFD, not the
record built from the arguments. And with arguments that are all valid UTF-8,
`CreateAsset` returns no error, and `ReadAsset` of the same id on the
resulting store, in a transaction in which the store's `get` fails, returns
the error `failed to read from world state: down`. -/
theorem createAsset_then_readAsset_counterexample :
    ((CreateAsset emptyStub (lit "log7") (lit "2024-05-07 11:00:00") (lit "websv2") [0xFF]
        (lit "access denied") ⟨443, by decide⟩ (lit "168.156.11.24")).1 = none ∧
    (ReadAsset (CreateAsset emptyStub (lit "log7") (lit "2024-05-07 11:00:00") (lit "websv2")
        [0xFF] (lit "access denied") ⟨443, by decide⟩ (lit "168.156.11.24")).2 (lit "log7")).1
      = .ok (Log.mk (lit "log7") (lit "2024-05-07 11:00:00") (lit "websv2") [0xEF, 0xBF, 0xBD]
          (lit "access denied") ⟨443, by decide⟩ (lit "168.156.11.24")) ∧
    (ReadAsset (CreateAsset emptyStub (lit "log7") (lit "2024-05-07 11:00:00") (lit "websv2")
        [0xFF] (lit "access denied") ⟨443, by decide⟩ (lit "168.156.11.24")).2 (lit "log7")).1
      ≠ .ok (Log.mk (lit "log7") (lit "2024-05-07 11:00:00") (lit "websv2") [0xFF]
          (lit "access denied") ⟨443, by decide⟩ (lit "168.156.11.24"))) ∧
    ((Log.mk (lit "log7") (lit "2024-05-07 11:00:00") (lit "websv2") (lit "guest")
        (lit "access denied") ⟨443, by decide⟩ (lit "168.156.11.24")).validStrings = true ∧
    (CreateAsset emptyStub (lit "log7") (lit "2024-05-07 11:00:00") (lit "websv2") (lit "guest")
        (lit "access denied") ⟨443, by decide⟩ (lit "168.156.11.24")).1 = none ∧
    ((CreateAsset emptyStub (lit "log7") (lit "2024-05-07 11:00:00") (lit "websv2")
        (lit "guest") (lit "access denied") ⟨443, by decide⟩
        (lit "168.156.11.24")).2.following getDownStub).world
      = (CreateAsset emptyStub (lit "log7") (lit "2024-05-07 11:00:00") (lit "websv2")
        (lit "guest") (lit "access denied") ⟨443, by decide⟩ (lit "168.156.11.24")).2.world ∧
    (ReadAsset ((CreateAsset emptyStub (lit "log7") (lit "2024-05-07 11:00:00") (lit "websv2")
        (lit "guest") (lit "access denied") ⟨443, by decide⟩
        (lit "168.156.11.24")).2.following getDownStub) (lit "log7")).1
      = .error (.errorf (lit "failed to read from world state: down"))) := by
  decide

/-- C2 (as amended). When `CreateAsset` of a record succeeds, a following
`CreateAsset` with the same id and any other field values, called with any
handle on the resulting store whose `get` answers for the id, returns the
error `the log <id> already exists` and hands back the store unchanged; the
bytes stored under the id are still those written by the first call. -/
theorem createAsset_duplicate_rejected (ctx : Stub) (id : GoString)
    (t1 s1 u1 e1 : GoString) (p1 : GoInt) (i1 : GoString)
    (t2 s2 u2 e2 : GoString) (p2 : GoInt) (i2 : GoString) (ctx2 : Stub)
    (h : (CreateAsset ctx id t1 s1 u1 e1 p1 i1).1 = none)
    (hworld : ctx2.world = (CreateAsset ctx id t1 s1 u1 e1 p1 i1).2.world)
    (hget : ctx2.getErr id = none) :
    CreateAsset ctx2 id t2 s2 u2 e2 p2 i2
      = (some (.errorf (lit "the log " ++ id ++ lit " already exists")), ctx2) ∧
    lookupEntry id (CreateAsset ctx2 id t2 s2 u2 e2 p2 i2).2.world
      = some (encodeLog (Log.mk id t1 s1 u1 e1 p1 i1)) := by
  obtain ⟨_, _, hctx⟩ := createAsset_ok ctx id t1 s1 u1 e1 p1 i1 h
  rw [hctx] at hworld
  simp [CreateAsset, AssetExists, Stub.GetState, hget, hworld, lookupEntry_insertEntry]

/-- Witness of C2 (as amended): `log7` created twice with different field
values, the second time through a handle of a later transaction whose `get`
answers (and whose range cursor is down). -/
theorem createAsset_duplicate_rejected_witness :
    (CreateAsset emptyStub (lit "log7") (lit "t1") (lit "s1") (lit "u1") (lit "e1")
        ⟨1, by decide⟩ (lit "i1")).1 = none ∧
    CreateAsset ((CreateAsset emptyStub (lit "log7") (lit "t1") (lit "s1") (lit "u1")
        (lit "e1") ⟨1, by decide⟩ (lit "i1")).2.following rangeDownStub) (lit "log7") (lit "t2")
        (lit "s2") (lit "u2") (lit "e2") ⟨2, by decide⟩ (lit "i2")
      = (some (.errorf (lit "the log " ++ lit "log7" ++ lit " already exists")),
         (CreateAsset emptyStub (lit "log7") (lit "t1") (lit "s1") (lit "u1") (lit "e1")
            ⟨1, by decide⟩ (lit "i1")).2.following rangeDownStub) ∧
    lookupEntry (lit "log7") (CreateAsset ((CreateAsset emptyStub (lit "log7") (lit "t1")
        (lit "s1") (lit "u1") (lit "e1") ⟨1, by decide⟩ (lit "i1")).2.following rangeDownStub)
        (lit "log7") (lit "t2") (lit "s2") (lit "u2") (lit "e2") ⟨2, by decide⟩
        (lit "i2")).2.world
      = some (encodeLog (Log.mk (lit "log7") (lit "t1") (lit "s1") (lit "u1") (lit "e1")
          ⟨1, by decide⟩ (lit "i1"))) :=
  ⟨by decide,
    createAsset_duplicate_rejected emptyStub (lit "log7") (lit "t1") (lit "s1") (lit "u1")
      (lit "e1") ⟨1, by decide⟩ (lit "i1") (lit "t2") (lit "s2") (lit "u2") (lit "e2")
      ⟨2, by decide⟩ (lit "i2") _ (by decide) rfl rfl⟩

/-- Counterexample to C2 as stated: `CreateAsset` of `log7` returns no error;
a following `CreateAsset` of `log7` on the resulting store, in a transaction
in which the store's `get` fails, returns the error
`failed to read from world state: down` and not the conflict error
`the log log7 already exists`. -/
theorem createAsset_duplicate_rejected_counterexample :
    (CreateAsset emptyStub (lit "log7") (lit "t1") (lit "s1") (lit "u1") (lit "e1")
        ⟨1, by decide⟩ (lit "i1")).1 = none ∧
    ((CreateAsset emptyStub (lit "log7") (lit "t1") (lit "s1") (lit "u1") (lit "e1")
        ⟨1, by decide⟩ (lit "i1")).2.following getDownStub).world
      = (CreateAsset emptyStub (lit "log7") (lit "t1") (lit "s1") (lit "u1") (lit "e1")
        ⟨1, by decide⟩ (lit "i1")).2.world ∧
    (CreateAsset ((CreateAsset emptyStub (lit "log7") (lit "t1") (lit "s1") (lit "u1")
        (lit "e1") ⟨1, by decide⟩ (lit "i1")).2.following getDownStub) (lit "log7") (lit "t2")
        (lit "s2") (lit "u2") (lit "e2") ⟨2, by decide⟩ (lit "i2")).1
      = some (.errorf (lit "failed to read from world state: down")) ∧
    (CreateAsset ((CreateAsset emptyStub (lit "log7") (lit "t1") (lit "s1") (lit "u1")
        (lit "e1") ⟨1, by decide⟩ (lit "i1")).2.following getDownStub) (lit "log7") (lit "t2")
        (lit "s2") (lit "u2") (lit "e2") ⟨2, by decide⟩ (lit "i2")).1
      ≠ some (.errorf (lit "the log log7 already exists")) := by
  decide


/-- C3. On a store whose `get` answers for `id` and that holds no entry for
`id`, `ReadAsset(id)` fails with `the asset <id> does not exist` and
`AssetExists(id)` returns false with no error; on any store whose `get` fails,
`ReadAsset(id)` fails with `failed to read from world state: <err>`, a
different error. -/
theorem readAsset_not_found (ctx : Stub) (id : GoString) (hget : ctx.getErr id = none)
    (hmiss : lookupEntry id ctx.world = none) :
    ReadAsset ctx id
      = (.error (.errorf (lit "the asset " ++ id ++ lit " does not exist")), ctx) ∧
    AssetExists ctx id = (.ok false, ctx) ∧
    ∀ (ctx1 : Stub) (e : GoString), ctx1.getErr id = some e →
      ReadAsset ctx1 id
        = (.error (.errorf (lit "failed to read from world state: " ++ e)), ctx1) ∧
      GoError.errorf (lit "the asset " ++ id ++ lit " does not exist")
        ≠ GoError.errorf (lit "failed to read from world state: " ++ e) := by
  refine ⟨?_, ?_, ?_⟩
  · simp [ReadAsset, Stub.GetState, hget, hmiss]
  · simp [AssetExists, Stub.GetState, hget, hmiss]
  · intro ctx1 e he
    refine ⟨by simp [ReadAsset, Stub.GetState, he], ?_⟩
    intro hEq
    have h1 : lit "the asset " = 116 :: lit "he asset " := by decide
    have h2 : lit "failed to read from world state: " = 102 :: lit "ailed to read from world state: " := by
      decide
    rw [h1, h2] at hEq
    simp at hEq

/-- Witness of C3: `log9` on the store left by `InitLedger`, and a store whose
`get` is down. -/
theorem readAsset_not_found_witness :
    (InitLedger emptyStub).2.getErr (lit "log9") = none ∧
    lookupEntry (lit "log9") (InitLedger emptyStub).2.world = none ∧
    getDownStub.getErr (lit "log9") = some (lit "down") ∧
    ReadAsset (InitLedger emptyStub).2 (lit "log9")
      = (.error (.errorf (lit "the asset " ++ lit "log9" ++ lit " does not exist")),
         (InitLedger emptyStub).2) ∧
    AssetExists (InitLedger emptyStub).2 (lit "log9") = (.ok false, (InitLedger emptyStub).2) ∧
    ReadAsset getDownStub (lit "log9")
      = (.error (.errorf (lit "failed to read from world state: " ++ lit "down")),
         getDownStub) :=
  ⟨by decide, by decide, by decide,
    (readAsset_not_found (InitLedger emptyStub).2 (lit "log9") (by decide) (by decide)).1,
    (readAsset_not_found (InitLedger emptyStub).2 (lit "log9") (by decide) (by decide)).2.1,
    ((readAsset_not_found (InitLedger emptyStub).2 (lit "log9") (by decide) (by decide)).2.2
      getDownStub (lit "down") (by decide)).1⟩

/-- C7 (as amended). When the store's `get` answers, `AssetExists(id)` returns
no error and the value true exactly when the answer is an entry (Go: the slice
is not `nil`), whether the entry holds bytes or none; for an answer that is
not an entry of zero bytes that is the same as an entry of at least one byte.
When the store's `get` fails with `err`, `AssetExists(id)` returns the error
`failed to read from world state: <err>` and not a plain false. -/
theorem assetExists_spec (ctx : Stub) (id : GoString) :
    (∀ v, ctx.GetState id = .ok v →
      ∃ b, AssetExists ctx id = (.ok b, ctx) ∧ (b = true ↔ ∃ bytes, v = some bytes) ∧
        (v ≠ some [] → (b = true ↔ ∃ bytes, v = some bytes ∧ bytes ≠ []))) ∧
    (∀ e, ctx.GetState id = .error e →
      AssetExists ctx id
        = (.error (.errorf (lit "failed to read from world state: " ++ e)), ctx)) := by
  constructor
  · intro v hv
    refine ⟨v.isSome, by simp [AssetExists, hv], ?_, ?_⟩
    · cases v <;> simp
    · intro hne
      cases v with
      | none => simp
      | some bytes =>
        simp only [Option.isSome_some, Option.some.injEq, exists_eq_left', true_iff]
        intro h
        exact hne (by rw [h])
  · intro e he
    simp [AssetExists, he]

/-- Witness of C7 (as amended): a present id, an absent id and a failing
`get`. -/
theorem assetExists_spec_witness :
    (InitLedger emptyStub).2.GetState (lit "log3") = .ok (lookupEntry (lit "log3")
        (InitLedger emptyStub).2.world) ∧
    (InitLedger emptyStub).2.GetState (lit "log9") = .ok none ∧
    getDownStub.GetState (lit "log3") = .error (lit "down") ∧
    AssetExists (InitLedger emptyStub).2 (lit "log3") = (.ok true, (InitLedger emptyStub).2) ∧
    AssetExists (InitLedger emptyStub).2 (lit "log9") = (.ok false, (InitLedger emptyStub).2) ∧
    (∃ b, AssetExists (InitLedger emptyStub).2 (lit "log3") = (.ok b, (InitLedger emptyStub).2)
      ∧ (b = true ↔ ∃ bytes, lookupEntry (lit "log3") (InitLedger emptyStub).2.world
          = some bytes) ∧
        (lookupEntry (lit "log3") (InitLedger emptyStub).2.world ≠ some [] →
          (b = true ↔ ∃ bytes, lookupEntry (lit "log3") (InitLedger emptyStub).2.world
            = some bytes ∧ bytes ≠ []))) ∧
    (∃ b, AssetExists (InitLedger emptyStub).2 (lit "log9") = (.ok b, (InitLedger emptyStub).2)
      ∧ (b = true ↔ ∃ bytes, (none : Option GoString) = some bytes) ∧
        ((none : Option GoString) ≠ some [] →
          (b = true ↔ ∃ bytes, (none : Option GoString) = some bytes ∧ bytes ≠ []))) ∧
    AssetExists getDownStub (lit "log3")
      = (.error (.errorf (lit "failed to read from world state: " ++ lit "down")),
         getDownStub) :=
  ⟨rfl, rfl, rfl, rfl, rfl,
    (assetExists_spec (InitLedger emptyStub).2 (lit "log3")).1 _ rfl,
    (assetExists_spec (InitLedger emptyStub).2 (lit "log9")).1 none rfl,
    (assetExists_spec getDownStub (lit "log3")).2 (lit "down") rfl⟩

/-- Counterexample to C7 as stated: the store answers the `get` of `log1`
with an entry of zero bytes (a slice that is not `nil`), so the store returns
no non-empty entry, and `AssetExists("log1")` returns true with no error. -/
theorem assetExists_spec_counterexample :
    emptyEntryStub.GetState (lit "log1") = .ok (some []) ∧
    (AssetExists emptyEntryStub (lit "log1")).1 = .ok true ∧
    ¬ ∃ bytes : GoString, (some [] : Option GoString) = some bytes ∧ bytes ≠ [] := by
  refine ⟨by decide, by decide, ?_⟩
  rintro ⟨bytes, hb, hne⟩
  exact hne (Option.some.inj hb).symm

/-- C4 (as amended). For every `Log` whose string fields are valid UTF-8, and
any port, `json.Marshal` succeeds and `json.Unmarshal` of the bytes into a
`Log` succeeds and yields the same record, field for field. -/
theorem json_round_trip (r : Log) (h : r.validStrings = true) :
    ∃ bytes, jsonMarshal r = .ok bytes ∧ jsonUnmarshal bytes = .ok r :=
  ⟨encodeLog r, rfl, by rw [jsonUnmarshal_encodeLog, coerceLog_of_valid r h]⟩

/-- Witness of C4 (as amended): a record with escapes, a two-byte rune, U+2028
and the least port. -/
theorem json_round_trip_witness :
    (Log.mk (lit "log\"7\\") [0xC3, 0xA9, 0xE2, 0x80, 0xA8] (lit "<web&sv>") [10, 9, 1, 127]
        [0xF0, 0x9F, 0x98, 0x80] ⟨-9223372036854775808, by decide⟩ []).validStrings = true ∧
    ∃ bytes,
      jsonMarshal (Log.mk (lit "log\"7\\") [0xC3, 0xA9, 0xE2, 0x80, 0xA8] (lit "<web&sv>")
        [10, 9, 1, 127] [0xF0, 0x9F, 0x98, 0x80] ⟨-9223372036854775808, by decide⟩ [])
        = .ok bytes ∧
      jsonUnmarshal bytes
        = .ok (Log.mk (lit "log\"7\\") [0xC3, 0xA9, 0xE2, 0x80, 0xA8] (lit "<web&sv>")
            [10, 9, 1, 127] [0xF0, 0x9F, 0x98, 0x80] ⟨-9223372036854775808, by decide⟩ []) :=
  ⟨by decide, json_round_trip _ (by decide)⟩

/-- Counterexample to C4 as stated: the record whose user is the single byte
`0xFF` is marshalled without error, and unmarshalling the bytes yields a
record whose user is the three bytes of U+FFFD. -/
theorem json_round_trip_counterexample :
    jsonMarshal (Log.mk (lit "log7") [] [] [0xFF] [] ⟨20, by decide⟩ [])
      = .ok (lit "\x7b\"ID\":\"log7\",\"timestamp\":\"\",\"server\":\"\",\"user\":\"\\ufffd\",\"event\":\"\",\"port\":20,\"ipAddress\":\"\"\x7d") ∧
    jsonUnmarshal (lit "\x7b\"ID\":\"log7\",\"timestamp\":\"\",\"server\":\"\",\"user\":\"\\ufffd\",\"event\":\"\",\"port\":20,\"ipAddress\":\"\"\x7d")
      = .ok (Log.mk (lit "log7") [] [] [0xEF, 0xBF, 0xBD] [] ⟨20, by decide⟩ []) ∧
    Log.mk (lit "log7") [] [] [0xEF, 0xBF, 0xBD] [] ⟨20, by decide⟩ []
      ≠ Log.mk (lit "log7") [] [] [0xFF] [] ⟨20, by decide⟩ [] := by
  decide

/-! ## The range scan and the bootstrap -/

theorem range_all (ctx : Stub) (h : ctx.rangeErr = none) :
    ctx.GetStateByRange [] []
      = (.ok { pending := ctx.world, index := 0, id := ctx.opened },
         { ctx with opened := ctx.opened + 1 }) := by
  simp [Stub.GetStateByRange, h]

theorem scanAssets_id (ctx : Stub) (fuel : Nat) : ∀ (it : Iterator) (assets : List Log),
    (scanAssets ctx fuel it assets).2.id = it.id := by
  induction fuel with
  | zero => intro it assets; rfl
  | succ fuel ih =>
    intro it assets
    rw [scanAssets]
    split_ifs with hn
    · obtain ⟨pending, index, id⟩ := it
      unfold Iterator.Next
      cases he : ctx.nextErr index with
      | some e => simp [he]
      | none =>
        rcases pending with _ | ⟨kv, rest⟩
        · simp [he]
        · simp only [he]
          cases hu : jsonUnmarshal kv.2 with
          | error e => simp
          | ok a => simp only []; rw [ih]
    · rfl

theorem scanAssets_ok (ctx : Stub) (fuel : Nat) :
    ∀ (pending : List (GoString × GoString)) (index id : Nat) (assets decoded : List Log),
    pending.length < fuel →
    (∀ j, j < pending.length → ctx.nextErr (index + j) = none) →
    List.Forall₂ (fun kv a => jsonUnmarshal kv.2 = .ok a) pending decoded →
    (scanAssets ctx fuel ⟨pending, index, id⟩ assets).1 = .ok (assets ++ decoded) := by
  induction fuel with
  | zero => intro pending _ _ _ _ h; omega
  | succ fuel ih =>
    intro pending index id assets decoded hlen hnext hdec
    rw [scanAssets]
    cases hdec with
    | nil => simp [Iterator.HasNext]
    | @cons kv a rest decoded1 h1 h2 =>
      have hn0 := hnext 0 (by simp)
      simp only [Nat.add_zero] at hn0
      simp only [Iterator.HasNext, List.isEmpty_cons, Bool.not_false, if_true, Iterator.Next,
        hn0, h1]
      rw [ih rest (index + 1) id (assets ++ [a]) decoded1 (by simp at hlen; omega)
        (fun j hj => by
          have := hnext (j + 1) (by simp; omega)
          rw [← this]; congr 1; omega) h2]
      simp

theorem scanAssets_error (ctx : Stub) (fuel : Nat) :
    ∀ (pending : List (GoString × GoString)) (index id : Nat) (assets : List Log),
    pending.length < fuel →
    (∃ j kv, pending[j]? = some kv ∧ (ctx.nextErr (index + j) ≠ none ∨ decodes kv.2 = false)) →
    ∃ e, (scanAssets ctx fuel ⟨pending, index, id⟩ assets).1 = .error e := by
  induction fuel with
  | zero => intro pending _ _ _ h; omega
  | succ fuel ih =>
    intro pending index id assets hlen hbad
    obtain ⟨j, kvj, hj, hfail⟩ := hbad
    rcases pending with _ | ⟨kv, rest⟩
    · simp at hj
    rw [scanAssets]
    simp only [Iterator.HasNext, List.isEmpty_cons, Bool.not_false, if_true, Iterator.Next]
    cases he : ctx.nextErr index with
    | some e => exact ⟨_, rfl⟩
    | none =>
      simp only []
      cases hu : jsonUnmarshal kv.2 with
      | error e => exact ⟨_, rfl⟩
      | ok a =>
        simp only []
        rcases j with _ | j
        · simp only [List.getElem?_cons_zero, Option.some.injEq] at hj
          subst hj
          rcases hfail with hf | hf
          · simp [he] at hf
          · simp [decodes, hu] at hf
        · apply ih rest (index + 1) id _ (by simp at hlen; omega)
          refine ⟨j, kvj, by simpa using hj, ?_⟩
          rw [show index + 1 + j = index + (j + 1) by omega]
          exact hfail


theorem forall2_of_decodes : ∀ (l : List (GoString × GoString)),
    l.all (fun kv => decodes kv.2) = true →
    ∃ assets, List.Forall₂ (fun kv a => jsonUnmarshal kv.2 = .ok a) l assets := by
  intro l
  induction l with
  | nil => intro _; exact ⟨[], List.Forall₂.nil⟩
  | cons kv l ih =>
    intro h
    simp only [List.all_cons, Bool.and_eq_true] at h
    obtain ⟨assets, ha⟩ := ih h.2
    cases hu : jsonUnmarshal kv.2 with
    | error e => simp [decodes, hu] at h
    | ok a => exact ⟨a :: assets, List.Forall₂.cons hu ha⟩

theorem getAllAssets_eq (ctx : Stub) (h : ctx.rangeErr = none) :
    GetAllAssets ctx
      = ((scanAssets { ctx with opened := ctx.opened + 1 } (ctx.world.length + 1)
            ⟨ctx.world, 0, ctx.opened⟩ []).1,
         { ctx with opened := ctx.opened + 1, closed := ctx.opened :: ctx.closed }) := by
  unfold GetAllAssets
  rw [range_all ctx h]
  simp only [Iterator.Close, scanAssets_id]

/-- C10. On every store whose range cursor opens, `GetAllAssets` closes that
cursor exactly once and opens no other, whatever the loop does: the handle
afterwards records one more opened cursor and one more closed cursor, the one
just opened, and the entries are untouched. When a `next()` of the cursor
fails or an entry does not decode, at whatever position, the result is an
error and no records; otherwise it is the list of records. -/
theorem getAllAssets_closes_cursor (ctx : Stub) (hopen : ctx.rangeErr = none) :
    (GetAllAssets ctx).2.closed = ctx.opened :: ctx.closed ∧
    (GetAllAssets ctx).2.opened = ctx.opened + 1 ∧
    (GetAllAssets ctx).2.world = ctx.world ∧
    ((∃ j kv, ctx.world[j]? = some kv ∧ (ctx.nextErr j ≠ none ∨ decodes kv.2 = false)) →
      ∃ e, (GetAllAssets ctx).1 = .error e) ∧
    ((∀ j, j < ctx.world.length → ctx.nextErr j = none) → ctx.WellFormed = true →
      ∃ assets, (GetAllAssets ctx).1 = .ok assets) := by
  rw [getAllAssets_eq ctx hopen]
  refine ⟨rfl, rfl, rfl, ?_, ?_⟩
  · intro hbad
    apply scanAssets_error _ _ _ _ _ _ (Nat.lt_succ_self _)
    simpa using hbad
  · intro hnext hwf
    obtain ⟨assets, ha⟩ := forall2_of_decodes ctx.world hwf
    refine ⟨assets, ?_⟩
    have := scanAssets_ok { ctx with opened := ctx.opened + 1 } (ctx.world.length + 1) ctx.world 0
      ctx.opened [] assets (Nat.lt_succ_self _) (by simpa using hnext) ha
    simpa using this

/-- Witness of C10: normal completion, a failing `next()` and an entry that
does not decode, each with the cursor closed once. -/
theorem getAllAssets_closes_cursor_witness :
    ((GetAllAssets (InitLedger emptyStub).2).2.closed = [0] ∧
      (GetAllAssets (InitLedger emptyStub).2).1 = .ok seedAssets ∧
      ∃ assets, (GetAllAssets (InitLedger emptyStub).2).1 = .ok assets) ∧
    ((GetAllAssets nextDownStub).2.closed = [0] ∧
      (GetAllAssets nextDownStub).1 = .error (.stub (lit "down")) ∧
      ∃ e, (GetAllAssets nextDownStub).1 = .error e) ∧
    ((GetAllAssets brokenEntryStub).2.closed = [0] ∧
      (GetAllAssets brokenEntryStub).1 = .error .syntaxError ∧
      ∃ e, (GetAllAssets brokenEntryStub).1 = .error e) :=
  ⟨⟨(getAllAssets_closes_cursor (InitLedger emptyStub).2 (by decide)).1, by decide,
    (getAllAssets_closes_cursor (InitLedger emptyStub).2 (by decide)).2.2.2.2
      (fun _ _ => rfl) (by decide)⟩,
   ⟨(getAllAssets_closes_cursor nextDownStub (by decide)).1, by decide,
    (getAllAssets_closes_cursor nextDownStub (by decide)).2.2.2.1
      ⟨2, (lit "log3", encodeLog (Log.mk (lit "log3") (lit "2020-06-06 18:57:31") (lit "websv2")
          (lit "guest") (lit "access denied") ⟨80, by decide⟩ (lit "168.156.11.24"))),
        by decide, Or.inl (by decide)⟩⟩,
   ⟨(getAllAssets_closes_cursor brokenEntryStub (by decide)).1, by decide,
    (getAllAssets_closes_cursor brokenEntryStub (by decide)).2.2.2.1
      ⟨2, (lit "log3", lit "not json"), by decide, Or.inr (by decide)⟩⟩⟩


theorem putAssets_ok : ∀ (assets : List Log) (ctx : Stub), (putAssets ctx assets).1 = none →
    (putAssets ctx assets).2
      = { ctx with
          world := assets.foldl (fun w a => insertEntry a.ID (encodeLog a) w) ctx.world } := by
  intro assets
  induction assets with
  | nil => intro ctx _; rfl
  | cons a rest ih =>
    intro ctx h
    rw [putAssets] at h ⊢
    simp only [jsonMarshal, Stub.PutState] at h ⊢
    cases hp : ctx.putErr a.ID (encodeLog a) with
    | some e => simp [hp] at h
    | none =>
      simp only [hp] at h ⊢
      rw [ih _ h]
      rfl

theorem seedWorld_eq :
    seedAssets.foldl (fun w a => insertEntry a.ID (encodeLog a) w) []
      = seedAssets.map (fun a => (a.ID, encodeLog a)) := by
  decide

theorem initLedger_ok (ctx : Stub) (hworld : ctx.world = []) (h : (InitLedger ctx).1 = none) :
    (InitLedger ctx).2
      = { ctx with world := seedAssets.map (fun a => (a.ID, encodeLog a)) } := by
  unfold InitLedger at h ⊢
  rw [putAssets_ok _ _ h, hworld, seedWorld_eq]

theorem forall2_encodeLog : ∀ (l : List Log), (∀ a ∈ l, a.validStrings = true) →
    List.Forall₂ (fun (kv : GoString × GoString) a => jsonUnmarshal kv.2 = .ok a)
      (l.map (fun a => (a.ID, encodeLog a))) l := by
  intro l
  induction l with
  | nil => intro _; exact List.Forall₂.nil
  | cons a l ih =>
    intro h
    refine List.Forall₂.cons ?_ (ih (fun b hb => h b (by simp [hb])))
    simp only [jsonUnmarshal_encodeLog, coerceLog_of_valid a (h a (by simp))]

theorem seedAssets_valid : ∀ a ∈ seedAssets, a.validStrings = true := by decide

theorem seedAssets_lookup : ∀ a ∈ seedAssets,
    lookupEntry a.ID (seedAssets.map (fun a => (a.ID, encodeLog a))) = some (encodeLog a) := by
  decide

/-- C5 (as amended). Starting from an empty store on which `InitLedger`
returns no error, and whose `get` answers for the six seed ids and whose range
cursor opens and yields its first six entries without error: `GetAllAssets`
returns exactly the six seed records, ids `log1` to `log6`, each equal to its
hard-coded value, and `ReadAsset(id)` returns the same seed record for each of
the six ids. -/
theorem initLedger_scenario (ctx : Stub) (hworld : ctx.world = [])
    (hinit : (InitLedger ctx).1 = none)
    (hget : ∀ a ∈ seedAssets, ctx.getErr a.ID = none)
    (hrange : ctx.rangeErr = none) (hnext : ∀ j, j < 6 → ctx.nextErr j = none) :
    (GetAllAssets (InitLedger ctx).2).1 = .ok seedAssets ∧
    seedAssets.map (·.ID) = seedIDs ∧ seedAssets.length = 6 ∧
    ∀ a ∈ seedAssets, (ReadAsset (InitLedger ctx).2 a.ID).1 = .ok a := by
  rw [initLedger_ok ctx hworld hinit]
  refine ⟨?_, by decide, rfl, ?_⟩
  · rw [getAllAssets_eq { ctx with world := seedAssets.map (fun a => (a.ID, encodeLog a)) }
      hrange]
    have := scanAssets_ok
      { ctx with world := seedAssets.map (fun a => (a.ID, encodeLog a)),
                 opened := ctx.opened + 1 }
      ((seedAssets.map (fun a => (a.ID, encodeLog a))).length + 1)
      (seedAssets.map (fun a => (a.ID, encodeLog a))) 0 ctx.opened [] seedAssets
      (Nat.lt_succ_self _) (fun j hj => by simpa using hnext j (by simpa [seedAssets] using hj))
      (forall2_encodeLog seedAssets seedAssets_valid)
    simpa using this
  · intro a ha
    simp only [ReadAsset, Stub.GetState, hget a ha, seedAssets_lookup a ha,
      jsonUnmarshal_encodeLog, coerceLog_of_valid a (seedAssets_valid a ha)]

/-- Witness of C5 (as amended): the empty store that answers every call. -/
theorem initLedger_scenario_witness :
    emptyStub.world = [] ∧ (InitLedger emptyStub).1 = none ∧
    ((GetAllAssets (InitLedger emptyStub).2).1 = .ok seedAssets ∧
      seedAssets.map (·.ID) = seedIDs ∧ seedAssets.length = 6 ∧
      ∀ a ∈ seedAssets, (ReadAsset (InitLedger emptyStub).2 a.ID).1 = .ok a) :=
  ⟨rfl, by decide,
    initLedger_scenario emptyStub rfl (by decide) (fun _ _ => rfl) rfl (fun _ _ => rfl)⟩

/-- Counterexample to C5 as stated: on an empty store whose puts succeed and
whose `get` fails, `InitLedger` returns no error and `ReadAsset("log1")`
returns an error instead of the seed record. -/
theorem initLedger_scenario_counterexample :
    getDownStub.world = [] ∧
    (∀ a ∈ seedAssets, getDownStub.putErr a.ID (encodeLog a) = none) ∧
    (InitLedger getDownStub).1 = none ∧
    (ReadAsset (InitLedger getDownStub).2 (lit "log1")).1
      = .error (.errorf (lit "failed to read from world state: down")) := by
  decide

/-! ## Key order, the store invariant and the order of the keys -/

theorem keyLt_total : ∀ (a b : GoString), keyLt a b = false → a ≠ b → keyLt b a = true := by
  intro a
  induction a with
  | nil => intro b h hne; cases b <;> simp_all [keyLt]
  | cons x xs ih =>
    intro b h hne
    rcases b with _ | ⟨y, ys⟩
    · rfl
    · simp only [keyLt, Bool.or_eq_false_iff, decide_eq_false_iff_not, Bool.and_eq_false_imp,
        decide_eq_true_eq] at h
      simp only [keyLt, Bool.or_eq_true, decide_eq_true_eq, Bool.and_eq_true]
      by_cases hxy : x = y
      · subst hxy
        right
        exact ⟨rfl, ih ys (h.2 rfl) (by intro h'; exact hne (by rw [h']))⟩
      · left; omega

theorem ascending_cons (k : GoString) (l : List GoString) :
    ascending (k :: l) = true ↔ (∀ h ∈ l.head?, keyLt k h = true) ∧ ascending l = true := by
  cases l with
  | nil => simp [ascending]
  | cons b rest => simp [ascending]

theorem insertEntry_head (key value : GoString) (l : List (GoString × GoString)) :
    ∀ h ∈ ((insertEntry key value l).map (·.1)).head?,
      h = key ∨ h ∈ (l.map (·.1)).head? := by
  cases l with
  | nil => simp [insertEntry]
  | cons e l =>
    obtain ⟨k, v⟩ := e
    rw [insertEntry]
    split_ifs <;> simp

theorem insertEntry_sorted (key value : GoString) : ∀ (l : List (GoString × GoString)),
    ascending (l.map (·.1)) = true → ascending ((insertEntry key value l).map (·.1)) = true := by
  intro l
  induction l with
  | nil => intro _; rfl
  | cons e l ih =>
    intro h
    obtain ⟨k, v⟩ := e
    rw [List.map_cons, ascending_cons] at h
    rw [insertEntry]
    split_ifs with h1 h2
    · rw [List.map_cons, ascending_cons]
      refine ⟨by simpa using h1, ?_⟩
      rw [List.map_cons, ascending_cons]; exact h
    · subst h2
      rw [List.map_cons, ascending_cons]; exact h
    · rw [List.map_cons, ascending_cons]
      refine ⟨?_, ih h.2⟩
      intro x hx
      rcases insertEntry_head key value l x hx with rfl | hx'
      · exact keyLt_total _ _ (by simpa using h1) h2
      · exact h.1 x hx'

/-- The store stays in ascending key order under `PutState`. -/
theorem putState_sorted (ctx : Stub) (key value : GoString) (h : ctx.Sorted = true) :
    (ctx.PutState key value).2.Sorted = true := by
  unfold Stub.PutState
  cases ctx.putErr key value with
  | some e => exact h
  | none => exact insertEntry_sorted key value ctx.world h

/-- C6 (as amended). For every store, its entries in ascending key order,
whose range cursor opens and yields every entry without error and in which
every entry decodes: `GetAllAssets` returns one record per store entry, each
the decoding of that entry's value, in the order of the entries, which is the
ascending byte-lexicographic order of their keys. In particular, after an
`InitLedger` that returns no error on an empty store with such a cursor, the
ids come out as `log1, log2, log3, log4, log5, log6`. -/
theorem getAllAssets_in_key_order (ctx : Stub) (hopen : ctx.rangeErr = none)
    (hnext : ∀ j, j < ctx.world.length → ctx.nextErr j = none)
    (hdec : ctx.WellFormed = true) (hsorted : ctx.Sorted = true) :
    (∃ assets, (GetAllAssets ctx).1 = .ok assets ∧
      List.Forall₂ (fun kv a => jsonUnmarshal kv.2 = .ok a) ctx.world assets ∧
      ascending (ctx.world.map (·.1)) = true) ∧
    (∀ ctx0 : Stub, ctx0.world = [] → (InitLedger ctx0).1 = none → ctx0.rangeErr = none →
      (∀ j, j < 6 → ctx0.nextErr j = none) →
      ∃ assets, (GetAllAssets (InitLedger ctx0).2).1 = .ok assets ∧
        assets.map (·.ID) = seedIDs) := by
  constructor
  · obtain ⟨assets, ha⟩ := forall2_of_decodes ctx.world hdec
    refine ⟨assets, ?_, ha, hsorted⟩
    rw [getAllAssets_eq ctx hopen]
    have := scanAssets_ok { ctx with opened := ctx.opened + 1 } (ctx.world.length + 1) ctx.world 0
      ctx.opened [] assets (Nat.lt_succ_self _) (by simpa using hnext) ha
    simpa using this
  · intro ctx0 hworld hinit hrange hnext0
    refine ⟨seedAssets, ?_, by decide⟩
    rw [initLedger_ok ctx0 hworld hinit,
      getAllAssets_eq { ctx0 with world := seedAssets.map (fun a => (a.ID, encodeLog a)) } hrange]
    have := scanAssets_ok
      { ctx0 with world := seedAssets.map (fun a => (a.ID, encodeLog a)),
                  opened := ctx0.opened + 1 }
      ((seedAssets.map (fun a => (a.ID, encodeLog a))).length + 1)
      (seedAssets.map (fun a => (a.ID, encodeLog a))) 0 ctx0.opened [] seedAssets
      (Nat.lt_succ_self _) (fun j hj => by simpa using hnext0 j (by simpa [seedAssets] using hj))
      (forall2_encodeLog seedAssets seedAssets_valid)
    simpa using this

/-- Witness of C6 (as amended): the store left by `InitLedger` and then a
`CreateAsset` of `log0`, whose entry the cursor yields first. -/
theorem getAllAssets_in_key_order_witness :
    (CreateAsset (InitLedger emptyStub).2 (lit "log0") (lit "t") (lit "s") (lit "u") (lit "e")
        ⟨0, by decide⟩ (lit "i")).2.WellFormed = true ∧
    (CreateAsset (InitLedger emptyStub).2 (lit "log0") (lit "t") (lit "s") (lit "u") (lit "e")
        ⟨0, by decide⟩ (lit "i")).2.Sorted = true ∧
    ((∃ assets, (GetAllAssets (CreateAsset (InitLedger emptyStub).2 (lit "log0") (lit "t")
          (lit "s") (lit "u") (lit "e") ⟨0, by decide⟩ (lit "i")).2).1 = .ok assets ∧
        List.Forall₂ (fun kv a => jsonUnmarshal kv.2 = .ok a)
          (CreateAsset (InitLedger emptyStub).2 (lit "log0") (lit "t") (lit "s") (lit "u")
            (lit "e") ⟨0, by decide⟩ (lit "i")).2.world assets ∧
        ascending ((CreateAsset (InitLedger emptyStub).2 (lit "log0") (lit "t") (lit "s")
          (lit "u") (lit "e") ⟨0, by decide⟩ (lit "i")).2.world.map (·.1)) = true) ∧
      ∃ assets, (GetAllAssets (InitLedger emptyStub).2).1 = .ok assets ∧
        assets.map (·.ID) = seedIDs) :=
  ⟨by decide, by decide,
    (getAllAssets_in_key_order (CreateAsset (InitLedger emptyStub).2 (lit "log0") (lit "t")
        (lit "s") (lit "u") (lit "e") ⟨0, by decide⟩ (lit "i")).2 (by decide)
        (fun _ _ => by rfl) (by decide) (by decide)).1,
    (getAllAssets_in_key_order emptyStub rfl (fun _ _ => rfl) (by decide) (by decide)).2
      emptyStub rfl (by decide) rfl (fun _ _ => rfl)⟩

/-- Counterexample to C6 as stated: a store of six entries that all decode,
in ascending key order, whose range cursor cannot be opened: `GetAllAssets`
returns an error and no record. -/
theorem getAllAssets_in_key_order_counterexample :
    rangeDownStub.WellFormed = true ∧ rangeDownStub.Sorted = true ∧
    rangeDownStub.world.length = 6 ∧
    (GetAllAssets rangeDownStub).1 = .error (.stub (lit "down")) := by
  decide


theorem decodes_encodeLog (a : Log) : decodes (encodeLog a) = true := by
  simp [decodes, jsonUnmarshal_encodeLog]

theorem insertEntry_all_decode (key : GoString) (a : Log) (l : List (GoString × GoString))
    (h : l.all (fun kv => decodes kv.2) = true) :
    (insertEntry key (encodeLog a) l).all (fun kv => decodes kv.2) = true := by
  rw [List.all_eq_true] at h ⊢
  intro kv hkv
  rcases mem_insertEntry key (encodeLog a) l kv hkv with rfl | hmem
  · exact decodes_encodeLog a
  · exact h kv hmem

theorem putState_wellFormed (ctx : Stub) (key : GoString) (a : Log)
    (h : ctx.WellFormed = true) : (ctx.PutState key (encodeLog a)).2.WellFormed = true := by
  unfold Stub.PutState
  cases ctx.putErr key (encodeLog a) with
  | some e => exact h
  | none => exact insertEntry_all_decode key a ctx.world h

theorem putAssets_wellFormed : ∀ (assets : List Log) (ctx : Stub), ctx.WellFormed = true →
    (putAssets ctx assets).2.WellFormed = true := by
  intro assets
  induction assets with
  | nil => intro ctx h; exact h
  | cons a rest ih =>
    intro ctx h
    have hp := putState_wellFormed ctx a.ID a h
    rw [putAssets]
    simp only [jsonMarshal]
    rcases hq : ctx.PutState a.ID (encodeLog a) with ⟨err, ctx1⟩
    rw [hq] at hp
    cases err with
    | some e => exact hp
    | none => exact ih ctx1 hp

/-- C9. The invariant "every key present in the store holds bytes that decode
without error to a `Log`" holds on the empty store and is preserved by each of
`InitLedger`, `CreateAsset`, `ReadAsset`, `AssetExists` and `GetAllAssets`, for
all arguments, whether the call returns an error or not. -/
theorem wellFormed_invariant :
    (∀ ctx : Stub, ctx.world = [] → ctx.WellFormed = true) ∧
    ∀ ctx : Stub, ctx.WellFormed = true →
      (InitLedger ctx).2.WellFormed = true ∧
      (∀ (id timestamp server user event : GoString) (port : GoInt) (ipAddress : GoString),
        (CreateAsset ctx id timestamp server user event port ipAddress).2.WellFormed = true) ∧
      (∀ id, (ReadAsset ctx id).2.WellFormed = true) ∧
      (∀ id, (AssetExists ctx id).2.WellFormed = true) ∧
      (GetAllAssets ctx).2.WellFormed = true := by
  constructor
  · intro ctx h; simp [Stub.WellFormed, h]
  · intro ctx h
    have hexists : ∀ id, (AssetExists ctx id).2 = ctx := by
      intro id; unfold AssetExists; cases ctx.GetState id <;> rfl
    refine ⟨putAssets_wellFormed _ ctx h, ?_, ?_, ?_, ?_⟩
    · intro id timestamp server user event port ipAddress
      have hp := putState_wellFormed ctx id
        (Log.mk id timestamp server user event port ipAddress) h
      unfold CreateAsset AssetExists
      cases ctx.GetState id with
      | error e => exact h
      | ok v =>
        simp only [jsonMarshal]
        cases v with
        | some bytes => exact h
        | none =>
          simp only [Option.isSome_none, Bool.false_eq_true, if_false]
          rcases hq : ctx.PutState id
            (encodeLog (Log.mk id timestamp server user event port ipAddress)) with ⟨err, ctx1⟩
          rw [hq] at hp
          cases err <;> exact hp
    · intro id
      unfold ReadAsset
      cases ctx.GetState id with
      | error e => exact h
      | ok v =>
        cases v with
        | none => exact h
        | some bytes => simp only []; cases jsonUnmarshal bytes <;> exact h
    · intro id; rw [hexists]; exact h
    · unfold GetAllAssets Stub.GetStateByRange
      cases ctx.rangeErr with
      | some e => exact h
      | none => exact h

/-- Witness of C9: the invariant on the empty store and after each operation
on the store left by `InitLedger`. -/
theorem wellFormed_invariant_witness :
    emptyStub.WellFormed = true ∧ (InitLedger emptyStub).2.WellFormed = true ∧
    (InitLedger (InitLedger emptyStub).2).2.WellFormed = true ∧
    (CreateAsset (InitLedger emptyStub).2 (lit "log7") [0xFF] [] [] [] ⟨7, by decide⟩
      []).2.WellFormed = true ∧
    (GetAllAssets (InitLedger emptyStub).2).2.WellFormed = true :=
  ⟨wellFormed_invariant.1 emptyStub rfl,
   (wellFormed_invariant.2 emptyStub (by decide)).1,
   (wellFormed_invariant.2 (InitLedger emptyStub).2 (by decide)).1,
   (wellFormed_invariant.2 (InitLedger emptyStub).2 (by decide)).2.1 (lit "log7") [0xFF] [] [] []
     ⟨7, by decide⟩ [],
   (wellFormed_invariant.2 (InitLedger emptyStub).2 (by decide)).2.2.2.2⟩

/-- C8 (the code as it is). For every record the keys stand in the encoded
bytes in one fixed order, the order of the struct declaration: `ID`,
`timestamp`, `server`, `user`, `event`, `port`, `ipAddress`. That order is not
alphabetical, neither by bytes nor ignoring case, for the keys or for the
names of the fields: `timestamp` is written before `server`. -/
theorem encodeLog_key_order (a : Log) :
    objectKeys (encodeLog a) = some encodedKeys ∧
    ascending encodedKeys = false ∧ ascending (encodedKeys.map lowerASCII) = false ∧
    ascending declaredNames = false ∧ ascending (declaredNames.map lowerASCII) = false ∧
    keyLt (lit "server") (lit "timestamp") = true := by
  refine ⟨?_, by decide, by decide, by decide, by decide, by decide⟩
  simp only [objectKeys, parseJSON_encodeLog, memberList, encodedKeys, List.map]

end Chaincode
